import Mathlib

/-
Verification development for the StarPlanner best-first look-ahead tree search
(src/local_planner/src/nodes/star_planner.cpp, function buildLookAheadTree).

Modelling conventions:
* 3-D float vectors (Eigen::Vector3f) are modelled as triples of reals.
* float costs are modelled as EReal so that HUGE_VAL is the top element; all
  other float arithmetic is modelled over the reals.
* The external collaborators (histogram construction, cost-matrix assembly,
  candidate extraction, per-edge cost, polar/cartesian transforms) are fields
  of an abstract environment record Env: each is an arbitrary but fixed
  function, as required at the interface boundary.
* The two unused locals of the source (facing_goal and distance_to_goal,
  lines 66-67) have no effect on the result and are not modelled.
-/

noncomputable section

open scoped Classical

/-- A 3-D vector over the reals, modelling Eigen::Vector3f. -/
@[ext]
structure Vec3 where
  x : ℝ
  y : ℝ
  z : ℝ

instance : Inhabited Vec3 := ⟨⟨0, 0, 0⟩⟩

instance : Add Vec3 := ⟨fun a b => ⟨a.x + b.x, a.y + b.y, a.z + b.z⟩⟩

instance : Sub Vec3 := ⟨fun a b => ⟨a.x - b.x, a.y - b.y, a.z - b.z⟩⟩

/-- Euclidean norm of a 3-D vector, modelling Eigen's .norm(). -/
def Vec3.norm (v : Vec3) : ℝ := Real.sqrt (v.x ^ 2 + v.y ^ 2 + v.z ^ 2)

/-- Modelled from the spec: PolarPoint (avoidance/common.h is not under src/) is a
polar direction-plus-range triple: elevation angle e, azimuth angle z, radius r. -/
structure PolarPoint where
  e : ℝ
  z : ℝ
  r : ℝ

/-- Modelled from the spec: candidateDirection (not under src/) is a candidate
heading produced by the external candidate extraction, carrying its local cost
and an (elevation, azimuth) angle pair. -/
structure candidateDirection where
  cost : ℝ
  elevation_angle : ℝ
  azimuth_angle : ℝ

/-- Modelled from the spec: candidateDirection::toPolar materialises the heading
as a PolarPoint at a given radius. -/
def candidateDirection.toPolar (c : candidateDirection) (radius : ℝ) : PolarPoint :=
  ⟨c.elevation_angle, c.azimuth_angle, radius⟩

/-- Modelled from the spec: TreeNode (local_planner/tree_node.h is not under src/) is
one vertex of the search tree: parent index origin_, depth, position, velocity,
accumulated cost total_cost_, heuristic, heading bookkeeping, closed flag.  The
constructor TreeNode(origin, depth, position, velocity) used by the source leaves
the remaining fields at the defaults recorded here (closed_ = false). -/
@[ext]
structure TreeNode where
  origin_ : ℕ
  depth_ : ℕ
  position : Vec3
  velocity : Vec3
  total_cost_ : EReal := 0
  heuristic_ : ℝ := 0
  yaw_ : ℝ := 0
  last_e_ : ℝ := 0
  last_z_ : ℝ := 0
  closed_ : Bool := false

instance : Inhabited TreeNode := ⟨⟨0, 0, default, default, 0, 0, 0, 0, 0, false⟩⟩

/-- Indexing into the tree's node sequence, modelling std::vector operator[].
All source accesses are in range; out-of-range reads return the default node. -/
def nth (t : List TreeNode) (i : ℕ) : TreeNode := t.getD i default

/-- The abstract external collaborators of the planner (histogram construction,
cost-matrix assembly, candidate extraction, coordinate transforms, per-edge cost
function) together with the ALPHA_RES resolution constant.  Each is a fixed but
arbitrary function, mirroring the interface boundary of the spec. -/
structure Env (Cloud Hist CMat CParams : Type) where
  alpha_res : ℤ
  generateNewHistogram : Cloud → Vec3 → Hist
  getCostMatrix : Hist → Vec3 → Vec3 → Vec3 → CParams → ℝ → CMat
  getBestCandidatesFromCostMatrix : CMat → ℤ → List candidateDirection
  polarHistogramToCartesian : PolarPoint → Vec3 → Vec3
  polarToHistogramIndex : PolarPoint → ℤ → ℤ × ℤ
  get_dist : Hist → ℤ × ℤ → ℝ
  costFunction : PolarPoint → ℝ → Vec3 → Vec3 → Vec3 → CParams → ℝ

/-- The planner fields read by buildLookAheadTree: pose, velocity, yaw (already in
histogram frame), goal, obstacle cloud and the tunable parameters. -/
structure PlanIn (Cloud CParams : Type) where
  position_ : Vec3
  velocity_ : Vec3
  curr_yaw_histogram_frame_deg_ : ℝ
  goal_ : Vec3
  cloud_ : Cloud
  cost_params_ : CParams
  children_per_node_ : ℤ
  n_expanded_nodes_ : ℤ
  tree_node_distance_ : ℝ
  max_path_length_ : ℝ
  smoothing_margin_degrees_ : ℝ

/-- The full mutable state of a StarPlanner object: the cycle inputs plus the
fields overwritten by buildLookAheadTree (tree, closed set, output path, age)
and the remaining member projected_last_wp_. -/
structure PlannerState (Cloud CParams : Type) extends PlanIn Cloud CParams where
  tree_ : List TreeNode
  closed_set_ : List ℕ
  path_node_positions_ : List Vec3
  path_node_origins_ : List ℕ
  tree_age_ : ℤ
  projected_last_wp_ : Vec3

/-- StarPlanner::treeHeuristicFunction: Euclidean distance from a node's position
to the goal. -/
def treeHeuristicFunction (goal : Vec3) (t : List TreeNode) (node_number : ℕ) : ℝ :=
  (goal - (nth t node_number).position).norm

/-- C's atan2(y, x), modelled as the argument of the complex number x + y i,
which shares its (-pi, pi] convention. -/
def atan2 (y x : ℝ) : ℝ := Complex.arg ⟨x, y⟩

/-- C's std::round (ties away from zero), returning a real. -/
def croundf (v : ℝ) : ℝ :=
  if v < 0 then -((Int.floor (-v + 1 / 2) : ℤ) : ℝ) else ((Int.floor (v + 1 / 2) : ℤ) : ℝ)

/-- The loop-local state of the expansion loop in buildLookAheadTree: the growing
tree, the closed set, the current origin index and the is_expanded_node flag. -/
structure LoopState where
  tree : List TreeNode
  closed_set : List ℕ
  origin : ℕ
  is_expanded_node : Bool

/-- The child node appended for an accepted candidate (source lines 104-117):
push_back TreeNode(origin, depth, node_location, node_velocity), then fill in
last_e_, last_z_, heuristic_, total_cost_ and yaw_ exactly as the source does. -/
def mkChild {Cloud Hist CMat CParams : Type} (env : Env Cloud Hist CMat CParams)
    (P : PlanIn Cloud CParams) (origin : ℕ) (origin_position : Vec3) (depth : ℕ)
    (histogram : Hist) (tree : List TreeNode) (candidate : candidateDirection) : TreeNode :=
  let candidate_polar := candidate.toPolar P.tree_node_distance_
  let node_location := env.polarHistogramToCartesian candidate_polar origin_position
  let node_velocity := (nth tree (nth tree origin).origin_).velocity +
    (node_location - origin_position)
  let tree1 := tree ++
    [{ origin_ := origin, depth_ := depth, position := node_location,
       velocity := node_velocity }]
  let h := treeHeuristicFunction P.goal_ tree1 (tree1.length - 1)
  let obstacle_distance :=
    env.get_dist histogram (env.polarToHistogramIndex candidate_polar env.alpha_res)
  let c := env.costFunction candidate_polar obstacle_distance P.goal_ node_location
    node_velocity P.cost_params_
  let diff := node_location - origin_position
  let yaw_radians := atan2 diff.y diff.x
  { origin_ := origin, depth_ := depth, position := node_location,
    velocity := node_velocity,
    total_cost_ := (nth tree1 origin).total_cost_ -
      ((nth tree1 origin).heuristic_ : ℝ) + (c : ℝ) + (h : ℝ),
    heuristic_ := h,
    yaw_ := croundf (-yaw_radians * 180 / Real.pi) + 90,
    last_e_ := candidate_polar.e,
    last_z_ := candidate_polar.z }

/-- One step of the candidate loop (source lines 87-120): convert the candidate
to a world-frame location at tree_node_distance_ from the origin, reject it when
the branching budget is used up or some tree node lies strictly within 0.2 of it,
and otherwise append the fully initialised child node. -/
def addCandidate {Cloud Hist CMat CParams : Type} (env : Env Cloud Hist CMat CParams)
    (P : PlanIn Cloud CParams) (origin : ℕ) (origin_position : Vec3) (depth : ℕ)
    (histogram : Hist) (acc : List TreeNode × ℕ) (candidate : candidateDirection) :
    List TreeNode × ℕ :=
  let tree := acc.1
  let children := acc.2
  let candidate_polar := candidate.toPolar P.tree_node_distance_
  let node_location := env.polarHistogramToCartesian candidate_polar origin_position
  if (children : ℤ) < P.children_per_node_ ∧
      ¬ ∃ i, i < tree.length ∧ ((nth tree i).position - node_location).norm < 0.2 then
    (tree ++ [mkChild env P origin origin_position depth histogram tree candidate],
      children + 1)
  else
    (tree, children)

/-- One step of the selection scan (source lines 127-138): an open node improves
the running minimum when its total cost is strictly below it and its distance
from the start position is below max_path_length_. -/
def selStep (t : List TreeNode) (position : Vec3) (max_path_length : ℝ)
    (acc : EReal × ℕ × Bool) (i : ℕ) : EReal × ℕ × Bool :=
  if (nth t i).closed_ = false then
    if (nth t i).total_cost_ < acc.1 ∧
        ((nth t i).position - position).norm < max_path_length then
      ((nth t i).total_cost_, i, true)
    else acc
  else acc

/-- The selection scan over all node indices, returning the next origin and the
is_expanded_node flag.  minimal_cost starts at HUGE_VAL and origin keeps its old
value when no node qualifies. -/
def selectNextOrigin (t : List TreeNode) (position : Vec3) (max_path_length : ℝ)
    (origin0 : ℕ) : ℕ × Bool :=
  let r := (List.range t.length).foldl (selStep t position max_path_length)
    ((⊤ : EReal), origin0, false)
  (r.2.1, r.2.2)

/-- One iteration of the expansion loop (source lines 63-142): build the
histogram and cost matrix at the origin, extract candidates, either mark the
origin as a dead end (total cost HUGE_VAL) or insert the accepted children,
close the origin, and select the next origin. -/
def expandOnce {Cloud Hist CMat CParams : Type} (env : Env Cloud Hist CMat CParams)
    (P : PlanIn Cloud CParams) (st : LoopState) : LoopState :=
  let origin := st.origin
  let origin_position := (nth st.tree origin).position
  let origin_velocity := (nth st.tree origin).velocity
  let histogram := env.generateNewHistogram P.cloud_ origin_position
  let cost_matrix := env.getCostMatrix histogram P.goal_ origin_position
    origin_velocity P.cost_params_ P.smoothing_margin_degrees_
  let candidate_vector := env.getBestCandidatesFromCostMatrix cost_matrix P.children_per_node_
  let tree1 :=
    if candidate_vector.isEmpty then
      st.tree.set origin { nth st.tree origin with total_cost_ := (⊤ : EReal) }
    else
      (candidate_vector.foldl
        (addCandidate env P origin origin_position ((nth st.tree origin).depth_ + 1) histogram)
        (st.tree, 0)).1
  let tree2 := tree1.set origin { nth tree1 origin with closed_ := true }
  let closed_set2 := st.closed_set ++ [origin]
  let sel := selectNextOrigin tree2 P.position_ P.max_path_length_ origin
  { tree := tree2, closed_set := closed_set2, origin := sel.1, is_expanded_node := sel.2 }

/-- The expansion loop, by fuel: for (int n = 0; n < n_expanded_nodes_ &&
is_expanded_node; n++).  The fuel is the number of remaining loop tests. -/
def expandLoop {Cloud Hist CMat CParams : Type} (env : Env Cloud Hist CMat CParams)
    (P : PlanIn Cloud CParams) : ℕ → LoopState → LoopState
  | 0, st => st
  | fuel + 1, st =>
    if st.is_expanded_node then expandLoop env P fuel (expandOnce env P st) else st

/-- The tree right after root insertion (source lines 57-60): the root sits at
the current position/velocity, setCosts makes accumulated cost and heuristic both
equal to the distance to the goal, and yaw_ and last_z_ hold the current yaw. -/
def initialTree {Cloud CParams : Type} (P : PlanIn Cloud CParams) : List TreeNode :=
  let t0 : List TreeNode :=
    [{ origin_ := 0, depth_ := 0, position := P.position_, velocity := P.velocity_ }]
  let h0 := treeHeuristicFunction P.goal_ t0 0
  [{ origin_ := 0, depth_ := 0, position := P.position_, velocity := P.velocity_,
     total_cost_ := (h0 : ℝ), heuristic_ := h0,
     yaw_ := P.curr_yaw_histogram_frame_deg_,
     last_z_ := P.curr_yaw_histogram_frame_deg_ }]

/-- The loop state on entry of the expansion loop: fresh tree, empty closed set,
origin 0, is_expanded_node true. -/
def initLoopState {Cloud CParams : Type} (P : PlanIn Cloud CParams) : LoopState :=
  ⟨initialTree P, [], 0, true⟩

/-- The expansion phase of buildLookAheadTree: run the loop from the fresh root
state with budget n_expanded_nodes_. -/
def runCore {Cloud Hist CMat CParams : Type} (env : Env Cloud Hist CMat CParams)
    (P : PlanIn Cloud CParams) : LoopState :=
  expandLoop env P P.n_expanded_nodes_.toNat (initLoopState P)

/-- The backtracking while loop (source lines 147-151), by fuel: collect the
indices visited while tree_end > 0, stepping to the parent each time.  The
parent-index invariant (origin_ i < i for i > 0) makes fuel = tree length
sufficient for every state the planner produces. -/
def backtrackOrigins (t : List TreeNode) : ℕ → ℕ → List ℕ
  | 0, _ => []
  | fuel + 1, tree_end =>
    if 0 < tree_end then tree_end :: backtrackOrigins t fuel (nth t tree_end).origin_
    else []

/-- The output path_node_origins_: the backtracked indices followed by the root
index 0 (source lines 148 and 153). -/
def pathNodeOrigins (t : List TreeNode) (tree_end : ℕ) : List ℕ :=
  backtrackOrigins t t.length tree_end ++ [0]

/-- The output path_node_positions_: the positions of the backtracked nodes
followed by the root position (source lines 149 and 152). -/
def pathNodePositions (t : List TreeNode) (tree_end : ℕ) : List Vec3 :=
  (pathNodeOrigins t tree_end).map (fun i => (nth t i).position)

/-- StarPlanner::buildLookAheadTree: clear tree and closed set, insert the root,
run the expansion loop, extract the path from the final origin, and reset the
tree age. -/
def buildLookAheadTree {Cloud Hist CMat CParams : Type} (env : Env Cloud Hist CMat CParams)
    (st : PlannerState Cloud CParams) : PlannerState Cloud CParams :=
  let final := runCore env st.toPlanIn
  { st with
    tree_ := final.tree,
    closed_set_ := final.closed_set,
    path_node_positions_ := pathNodePositions final.tree final.origin,
    path_node_origins_ := pathNodeOrigins final.tree final.origin,
    tree_age_ := 0 }

/-- The parent chain of index i: i, its parent, its grandparent, ..., ending at
the root index 0.  Defined by well-founded recursion; for trees satisfying the
parent-index invariant the min is the parent itself. -/
def parentChain (t : List TreeNode) (i : ℕ) : List ℕ :=
  match i with
  | 0 => [0]
  | k + 1 => (k + 1) :: parentChain t (min (nth t (k + 1)).origin_ k)
termination_by i
decreasing_by
  exact Nat.lt_succ_of_le (Nat.min_le_right _ _)

/-- k-fold iteration of the parent link starting from index i. -/
def originIter (t : List TreeNode) : ℕ → ℕ → ℕ
  | 0, i => i
  | k + 1, i => originIter t k (nth t i).origin_

/-- The incremental traversal cost of the edge into node i, recomputed from the
environment exactly as the insertion step computed it: the stored (last_e_,
last_z_) angles at radius tree_node_distance_, the obstacle distance read from
the histogram generated at the parent position, and the stored child position
and velocity. -/
def edgeCost {Cloud Hist CMat CParams : Type} (env : Env Cloud Hist CMat CParams)
    (P : PlanIn Cloud CParams) (t : List TreeNode) (i : ℕ) : ℝ :=
  let nd := nth t i
  let polar : PolarPoint := ⟨nd.last_e_, nd.last_z_, P.tree_node_distance_⟩
  let histogram := env.generateNewHistogram P.cloud_ (nth t nd.origin_).position
  let obstacle_distance := env.get_dist histogram (env.polarToHistogramIndex polar env.alpha_res)
  env.costFunction polar obstacle_distance P.goal_ nd.position nd.velocity P.cost_params_

/-- Whether node i is eligible for selection as next origin: open and within
max_path_length_ of the start position. -/
def qualifies (t : List TreeNode) (position : Vec3) (max_path_length : ℝ) (i : ℕ) : Prop :=
  (nth t i).closed_ = false ∧ ((nth t i).position - position).norm < max_path_length

/-- The facts established for every node appended during one expansion from
origin o of base tree T0: parent link, depth, open flag, heuristic value, the
accumulated-cost equation and the velocity equation of the source insertion. -/
def newNodeFact {Cloud Hist CMat CParams : Type} (env : Env Cloud Hist CMat CParams)
    (P : PlanIn Cloud CParams) (T0 : List TreeNode) (o : ℕ) (T : List TreeNode)
    (j : ℕ) : Prop :=
  (nth T j).origin_ = o ∧
  (nth T j).depth_ = (nth T0 o).depth_ + 1 ∧
  (nth T j).closed_ = false ∧
  (nth T j).heuristic_ = (P.goal_ - (nth T j).position).norm ∧
  (nth T j).total_cost_ = (nth T0 o).total_cost_ - ((nth T0 o).heuristic_ : ℝ) +
    ((edgeCost env P T j : ℝ) : EReal) + (((nth T j).heuristic_ : ℝ) : EReal) ∧
  (nth T j).velocity = (nth T0 (nth T0 o).origin_).velocity +
    ((nth T j).position - (nth T0 o).position)

/-- Invariant of the candidate fold: the base tree is preserved, each accepted
child satisfies newNodeFact, the accepted count matches the growth and respects
the branching budget, and all nodes stay pairwise at least 0.2 apart. -/
def foldInv {Cloud Hist CMat CParams : Type} (env : Env Cloud Hist CMat CParams)
    (P : PlanIn Cloud CParams) (T0 : List TreeNode) (o : ℕ)
    (acc : List TreeNode × ℕ) : Prop :=
  T0.length ≤ acc.1.length ∧
  acc.1.length = T0.length + acc.2 ∧
  ((acc.2 : ℤ) ≤ max P.children_per_node_ 0) ∧
  (∀ j, j < T0.length → nth acc.1 j = nth T0 j) ∧
  (∀ j, T0.length ≤ j → j < acc.1.length → newNodeFact env P T0 o acc.1 j) ∧
  (∀ i j, i < j → j < acc.1.length →
    ¬ ((nth acc.1 i).position - (nth acc.1 j).position).norm < 0.2)

/-- The candidate_vector computed at the current origin (source lines 69-78):
histogram at the origin position, cost matrix, then best candidates. -/
def candsOf {Cloud Hist CMat CParams : Type} (env : Env Cloud Hist CMat CParams)
    (P : PlanIn Cloud CParams) (st : LoopState) : List candidateDirection :=
  env.getBestCandidatesFromCostMatrix
    (env.getCostMatrix (env.generateNewHistogram P.cloud_ ((nth st.tree st.origin).position))
      P.goal_ ((nth st.tree st.origin).position) ((nth st.tree st.origin).velocity)
      P.cost_params_ P.smoothing_margin_degrees_)
    P.children_per_node_

/-- The tree after the candidate-insertion phase of one expansion iteration,
before the origin is closed: either the dead-end marking or the candidate fold. -/
def expandTree1 {Cloud Hist CMat CParams : Type} (env : Env Cloud Hist CMat CParams)
    (P : PlanIn Cloud CParams) (st : LoopState) : List TreeNode :=
  if (candsOf env P st).isEmpty then
    st.tree.set st.origin { nth st.tree st.origin with total_cost_ := (⊤ : EReal) }
  else
    ((candsOf env P st).foldl
      (addCandidate env P st.origin ((nth st.tree st.origin).position)
        ((nth st.tree st.origin).depth_ + 1)
        (env.generateNewHistogram P.cloud_ ((nth st.tree st.origin).position)))
      (st.tree, 0)).1

/-- The tree at the end of one expansion iteration: expandTree1 with the origin
closed. -/
def expandTree2 {Cloud Hist CMat CParams : Type} (env : Env Cloud Hist CMat CParams)
    (P : PlanIn Cloud CParams) (st : LoopState) : List TreeNode :=
  (expandTree1 env P st).set st.origin
    { nth (expandTree1 env P st) st.origin with closed_ := true }

/-- The invariant maintained by the expansion loop over its state: index bounds,
root facts, tree shape (parent below child, depth increments), 0.2 spacing, the
heuristic / accumulated-cost / velocity equations of every child, the closed-set
bookkeeping and the size bound. -/
structure TreeInv {Cloud Hist CMat CParams : Type} (env : Env Cloud Hist CMat CParams)
    (P : PlanIn Cloud CParams) (st : LoopState) : Prop where
  origin_lt : st.origin < st.tree.length
  root_origin : (nth st.tree 0).origin_ = 0
  root_depth : (nth st.tree 0).depth_ = 0
  root_position : (nth st.tree 0).position = P.position_
  parent_lt : ∀ i, 0 < i → i < st.tree.length → (nth st.tree i).origin_ < i
  depth_eq : ∀ i, 0 < i → i < st.tree.length →
    (nth st.tree i).depth_ = (nth st.tree (nth st.tree i).origin_).depth_ + 1
  spaced : ∀ i j, i < j → j < st.tree.length →
    ¬ ((nth st.tree i).position - (nth st.tree j).position).norm < 0.2
  heur_eq : ∀ i, i < st.tree.length →
    (nth st.tree i).heuristic_ = (P.goal_ - (nth st.tree i).position).norm
  cost_eq : ∀ i, 0 < i → i < st.tree.length →
    ((nth st.tree i).total_cost_ = ⊤ ∧ (nth st.tree i).closed_ = true) ∨
    (nth st.tree i).total_cost_ =
      (nth st.tree (nth st.tree i).origin_).total_cost_ -
        (((nth st.tree (nth st.tree i).origin_).heuristic_ : ℝ) : EReal) +
        ((edgeCost env P st.tree i : ℝ) : EReal) +
        (((nth st.tree i).heuristic_ : ℝ) : EReal)
  vel_eq : ∀ i, 0 < i → i < st.tree.length →
    (nth st.tree i).velocity =
      (nth st.tree (nth st.tree (nth st.tree i).origin_).origin_).velocity +
      ((nth st.tree i).position - (nth st.tree (nth st.tree i).origin_).position)
  parent_closed : ∀ i, 0 < i → i < st.tree.length →
    (nth st.tree (nth st.tree i).origin_).closed_ = true
  closed_nodup : st.closed_set.Nodup
  closed_mem : ∀ c ∈ st.closed_set, c < st.tree.length ∧ (nth st.tree c).closed_ = true
  open_origin : st.is_expanded_node = true → (nth st.tree st.origin).closed_ = false
  size_bound : st.tree.length ≤ 1 + st.closed_set.length * P.children_per_node_.toNat

/-- A concrete environment whose candidate extraction always returns the empty
list: every expansion is a dead end. -/
def envA : Env Unit Unit Unit Unit :=
  { alpha_res := 60,
    generateNewHistogram := fun _ _ => (),
    getCostMatrix := fun _ _ _ _ _ _ => (),
    getBestCandidatesFromCostMatrix := fun _ _ => [],
    polarHistogramToCartesian := fun _ p => p,
    polarToHistogramIndex := fun _ _ => (0, 0),
    get_dist := fun _ _ => 0,
    costFunction := fun _ _ _ _ _ _ => 0 }

/-- A concrete environment producing exactly one zero-cost candidate, placed
tree_node_distance_ ahead of the origin along the x axis. -/
def envB : Env Unit Unit Unit Unit :=
  { alpha_res := 60,
    generateNewHistogram := fun _ _ => (),
    getCostMatrix := fun _ _ _ _ _ _ => (),
    getBestCandidatesFromCostMatrix := fun _ _ => [⟨0, 0, 0⟩],
    polarHistogramToCartesian := fun pp p => ⟨p.x + pp.r, p.y, p.z⟩,
    polarToHistogramIndex := fun _ _ => (0, 0),
    get_dist := fun _ _ => 0,
    costFunction := fun _ _ _ _ _ _ => 0 }

/-- A concrete planner state at the origin with goal at the origin, budget 2,
branching factor 1; the fields overwritten by buildLookAheadTree are left as
parameters so that two states differing only in them can be compared. -/
def stA (tr : List TreeNode) (cs : List ℕ) (pp : List Vec3) (po : List ℕ) (age : ℤ)
    (wp : Vec3) : PlannerState Unit Unit :=
  { position_ := ⟨0, 0, 0⟩, velocity_ := ⟨0, 0, 0⟩, curr_yaw_histogram_frame_deg_ := 0,
    goal_ := ⟨0, 0, 0⟩, cloud_ := (), cost_params_ := (),
    children_per_node_ := 1, n_expanded_nodes_ := 2, tree_node_distance_ := 1,
    max_path_length_ := 100, smoothing_margin_degrees_ := 0,
    tree_ := tr, closed_set_ := cs, path_node_positions_ := pp,
    path_node_origins_ := po, tree_age_ := age, projected_last_wp_ := wp }

/-- A concrete planner state at the origin with goal two units ahead on the x
axis, budget 1, branching factor 1. -/
def stB : PlannerState Unit Unit :=
  { position_ := ⟨0, 0, 0⟩, velocity_ := ⟨0, 0, 0⟩, curr_yaw_histogram_frame_deg_ := 0,
    goal_ := ⟨2, 0, 0⟩, cloud_ := (), cost_params_ := (),
    children_per_node_ := 1, n_expanded_nodes_ := 1, tree_node_distance_ := 1,
    max_path_length_ := 100, smoothing_margin_degrees_ := 0,
    tree_ := [], closed_set_ := [], path_node_positions_ := [],
    path_node_origins_ := [], tree_age_ := 1000, projected_last_wp_ := ⟨0, 0, 0⟩ }

/-- A concrete planner state with a negative expansion budget. -/
def stC : PlannerState Unit Unit :=
  { position_ := ⟨0, 0, 0⟩, velocity_ := ⟨0, 0, 0⟩, curr_yaw_histogram_frame_deg_ := 0,
    goal_ := ⟨0, 0, 0⟩, cloud_ := (), cost_params_ := (),
    children_per_node_ := 1, n_expanded_nodes_ := -1, tree_node_distance_ := 1,
    max_path_length_ := 100, smoothing_margin_degrees_ := 0,
    tree_ := [], closed_set_ := [], path_node_positions_ := [],
    path_node_origins_ := [], tree_age_ := 1000, projected_last_wp_ := ⟨0, 0, 0⟩ }

/-- The root node produced for stB: at the origin, heuristic and accumulated
cost both 2 (the distance to the goal). -/
def rootB : TreeNode :=
  { origin_ := 0, depth_ := 0, position := ⟨0, 0, 0⟩, velocity := ⟨0, 0, 0⟩,
    total_cost_ := ((2 : ℝ) : EReal), heuristic_ := 2, yaw_ := 0, last_e_ := 0,
    last_z_ := 0, closed_ := false }

/-- The single child inserted for stB under envB: one unit ahead on the x axis,
heuristic 1, accumulated cost 2 - 2 + 0 + 1 = 1, yaw 90. -/
def childB : TreeNode :=
  { origin_ := 0, depth_ := 1, position := ⟨1, 0, 0⟩, velocity := ⟨1, 0, 0⟩,
    total_cost_ := ((1 : ℝ) : EReal), heuristic_ := 1, yaw_ := 90, last_e_ := 0,
    last_z_ := 0, closed_ := false }

theorem nth_nil (i : ℕ) : nth [] i = default := rfl

theorem nth_cons_zero (a : TreeNode) (t : List TreeNode) : nth (a :: t) 0 = a := rfl

theorem nth_cons_succ (a : TreeNode) (t : List TreeNode) (i : ℕ) :
    nth (a :: t) (i + 1) = nth t i := rfl

theorem nth_append_lt (t L : List TreeNode) (i : ℕ) (h : i < t.length) :
    nth (t ++ L) i = nth t i := by
  induction t generalizing i with
  | nil => simp at h
  | cons a t ih =>
    cases i with
    | zero => rfl
    | succ i => simpa [nth_cons_succ] using ih i (by simpa using h)

theorem nth_append_self (t : List TreeNode) (a : TreeNode) :
    nth (t ++ [a]) t.length = a := by
  induction t with
  | nil => rfl
  | cons b t ih => simpa [nth_cons_succ] using ih

theorem nth_set_self (t : List TreeNode) (i : ℕ) (a : TreeNode) (h : i < t.length) :
    nth (t.set i a) i = a := by
  induction t generalizing i with
  | nil => simp at h
  | cons b t ih =>
    cases i with
    | zero => rfl
    | succ i => simpa [nth_cons_succ] using ih i (by simpa using h)

theorem nth_set_ne (t : List TreeNode) (i j : ℕ) (a : TreeNode) (h : j ≠ i) :
    nth (t.set i a) j = nth t j := by
  induction t generalizing i j with
  | nil => rfl
  | cons b t ih =>
    cases i with
    | zero =>
      cases j with
      | zero => exact absurd rfl h
      | succ j => rfl
    | succ i =>
      cases j with
      | zero => rfl
      | succ j => simpa [nth_cons_succ] using ih i j (fun hji => h (by omega))

theorem nth_ge (t : List TreeNode) (i : ℕ) (h : t.length ≤ i) : nth t i = default := by
  induction t generalizing i with
  | nil => rfl
  | cons b t ih =>
    cases i with
    | zero => simp at h
    | succ i => simpa [nth_cons_succ] using ih i (by simpa using h)

theorem vadd_x (a b : Vec3) : (a + b).x = a.x + b.x := rfl

theorem vadd_y (a b : Vec3) : (a + b).y = a.y + b.y := rfl

theorem vadd_z (a b : Vec3) : (a + b).z = a.z + b.z := rfl

theorem vsub_x (a b : Vec3) : (a - b).x = a.x - b.x := rfl

theorem vsub_y (a b : Vec3) : (a - b).y = a.y - b.y := rfl

theorem vsub_z (a b : Vec3) : (a - b).z = a.z - b.z := rfl

theorem norm_sub_comm (a b : Vec3) : (a - b).norm = (b - a).norm := by
  unfold Vec3.norm
  congr 1
  simp only [vsub_x, vsub_y, vsub_z]
  ring

theorem upd_top_origin (nd : TreeNode) (c : EReal) :
    ({ nd with total_cost_ := c } : TreeNode).origin_ = nd.origin_ := rfl

theorem upd_top_depth (nd : TreeNode) (c : EReal) :
    ({ nd with total_cost_ := c } : TreeNode).depth_ = nd.depth_ := rfl

theorem upd_top_position (nd : TreeNode) (c : EReal) :
    ({ nd with total_cost_ := c } : TreeNode).position = nd.position := rfl

theorem upd_top_velocity (nd : TreeNode) (c : EReal) :
    ({ nd with total_cost_ := c } : TreeNode).velocity = nd.velocity := rfl

theorem upd_top_heuristic (nd : TreeNode) (c : EReal) :
    ({ nd with total_cost_ := c } : TreeNode).heuristic_ = nd.heuristic_ := rfl

theorem upd_top_last_e (nd : TreeNode) (c : EReal) :
    ({ nd with total_cost_ := c } : TreeNode).last_e_ = nd.last_e_ := rfl

theorem upd_top_last_z (nd : TreeNode) (c : EReal) :
    ({ nd with total_cost_ := c } : TreeNode).last_z_ = nd.last_z_ := rfl

theorem upd_top_closed (nd : TreeNode) (c : EReal) :
    ({ nd with total_cost_ := c } : TreeNode).closed_ = nd.closed_ := rfl

theorem upd_top_total (nd : TreeNode) (c : EReal) :
    ({ nd with total_cost_ := c } : TreeNode).total_cost_ = c := rfl

theorem upd_closed_origin (nd : TreeNode) (b : Bool) :
    ({ nd with closed_ := b } : TreeNode).origin_ = nd.origin_ := rfl

theorem upd_closed_depth (nd : TreeNode) (b : Bool) :
    ({ nd with closed_ := b } : TreeNode).depth_ = nd.depth_ := rfl

theorem upd_closed_position (nd : TreeNode) (b : Bool) :
    ({ nd with closed_ := b } : TreeNode).position = nd.position := rfl

theorem upd_closed_velocity (nd : TreeNode) (b : Bool) :
    ({ nd with closed_ := b } : TreeNode).velocity = nd.velocity := rfl

theorem upd_closed_heuristic (nd : TreeNode) (b : Bool) :
    ({ nd with closed_ := b } : TreeNode).heuristic_ = nd.heuristic_ := rfl

theorem upd_closed_last_e (nd : TreeNode) (b : Bool) :
    ({ nd with closed_ := b } : TreeNode).last_e_ = nd.last_e_ := rfl

theorem upd_closed_last_z (nd : TreeNode) (b : Bool) :
    ({ nd with closed_ := b } : TreeNode).last_z_ = nd.last_z_ := rfl

theorem upd_closed_total (nd : TreeNode) (b : Bool) :
    ({ nd with closed_ := b } : TreeNode).total_cost_ = nd.total_cost_ := rfl

theorem upd_closed_closed (nd : TreeNode) (b : Bool) :
    ({ nd with closed_ := b } : TreeNode).closed_ = b := rfl

theorem foldl_preserve {α β : Type _} (f : β → α → β) (l : List α) (b : β) (Q : β → Prop)
    (h0 : Q b) (hstep : ∀ acc x, x ∈ l → Q acc → Q (f acc x)) : Q (l.foldl f b) := by
  induction l generalizing b with
  | nil => exact h0
  | cons a l ih =>
    exact ih (f b a) (hstep b a (by simp) h0) (fun acc x hx hq => hstep acc x (by simp [hx]) hq)

theorem selAux (t : List TreeNode) (position : Vec3) (max_path_length : ℝ) (origin0 : ℕ)
    (n : ℕ) :
    (((List.range n).foldl (selStep t position max_path_length)
        ((⊤ : EReal), origin0, false)).2.2 = true →
      ((List.range n).foldl (selStep t position max_path_length)
          ((⊤ : EReal), origin0, false)).2.1 < n ∧
      qualifies t position max_path_length
        ((List.range n).foldl (selStep t position max_path_length)
          ((⊤ : EReal), origin0, false)).2.1 ∧
      ((List.range n).foldl (selStep t position max_path_length)
          ((⊤ : EReal), origin0, false)).1 =
        (nth t ((List.range n).foldl (selStep t position max_path_length)
          ((⊤ : EReal), origin0, false)).2.1).total_cost_ ∧
      ∀ j, j < n → qualifies t position max_path_length j →
        ((List.range n).foldl (selStep t position max_path_length)
          ((⊤ : EReal), origin0, false)).1 ≤ (nth t j).total_cost_) ∧
    (((List.range n).foldl (selStep t position max_path_length)
        ((⊤ : EReal), origin0, false)).2.2 = false →
      ((List.range n).foldl (selStep t position max_path_length)
          ((⊤ : EReal), origin0, false)).1 = ⊤ ∧
      ((List.range n).foldl (selStep t position max_path_length)
          ((⊤ : EReal), origin0, false)).2.1 = origin0 ∧
      ∀ j, j < n → qualifies t position max_path_length j →
        (nth t j).total_cost_ = ⊤) := by
  induction n with
  | zero =>
    constructor
    · intro h; simp [List.range_zero] at h
    · intro _; refine ⟨rfl, rfl, ?_⟩; intro j hj; omega
  | succ n ih =>
    rw [List.range_succ, List.foldl_append, List.foldl_cons, List.foldl_nil]
    set S := (List.range n).foldl (selStep t position max_path_length)
      ((⊤ : EReal), origin0, false) with hS
    by_cases hcl : (nth t n).closed_ = false
    · by_cases hcond : (nth t n).total_cost_ < S.1 ∧
        ((nth t n).position - position).norm < max_path_length
      · have hstep : selStep t position max_path_length S n =
            ((nth t n).total_cost_, n, true) := by
          unfold selStep
          rw [if_pos hcl, if_pos hcond]
        rw [hstep]
        constructor
        · intro _
          refine ⟨Nat.lt_succ_self n, ⟨hcl, hcond.2⟩, rfl, ?_⟩
          intro j hj hq
          rcases Nat.lt_succ_iff_lt_or_eq.mp hj with hj' | rfl
          · rcases Bool.eq_false_or_eq_true S.2.2 with htr | hf
            · have hmin := (ih.1 htr).2.2.2 j hj' hq
              exact le_trans (le_of_lt hcond.1) hmin
            · have := (ih.2 hf).2.2 j hj' hq
              rw [this]; exact le_top
          · exact le_refl _
        · intro h; simp at h
      · have hstep : selStep t position max_path_length S n = S := by
          unfold selStep
          rw [if_pos hcl, if_neg hcond]
        rw [hstep]
        constructor
        · intro htr
          obtain ⟨h1, h2, h3, h4⟩ := ih.1 htr
          refine ⟨by omega, h2, h3, ?_⟩
          intro j hj hq
          rcases Nat.lt_succ_iff_lt_or_eq.mp hj with hj' | rfl
          · exact h4 j hj' hq
          · rcases not_and_or.mp hcond with hc | hc
            · exact le_of_not_lt hc
            · exact absurd hq.2 hc
        · intro hf
          obtain ⟨h1, h2, h3⟩ := ih.2 hf
          refine ⟨h1, h2, ?_⟩
          intro j hj hq
          rcases Nat.lt_succ_iff_lt_or_eq.mp hj with hj' | rfl
          · exact h3 j hj' hq
          · rcases not_and_or.mp hcond with hc | hc
            · rw [h1] at hc
              exact (lt_top_iff_ne_top.not_left.mp hc).symm ▸ rfl
            · exact absurd hq.2 hc

    · have hstep : selStep t position max_path_length S n = S := by
        unfold selStep
        rw [if_neg hcl]
      rw [hstep]
      constructor
      · intro htr
        obtain ⟨h1, h2, h3, h4⟩ := ih.1 htr
        refine ⟨by omega, h2, h3, ?_⟩
        intro j hj hq
        rcases Nat.lt_succ_iff_lt_or_eq.mp hj with hj' | rfl
        · exact h4 j hj' hq
        · exact absurd hq.1 hcl
      · intro hf
        obtain ⟨h1, h2, h3⟩ := ih.2 hf
        refine ⟨h1, h2, ?_⟩
        intro j hj hq
        rcases Nat.lt_succ_iff_lt_or_eq.mp hj with hj' | rfl
        · exact h3 j hj' hq
        · exact absurd hq.1 hcl

theorem selectNextOrigin_found (t : List TreeNode) (position : Vec3)
    (max_path_length : ℝ) (origin0 : ℕ)
    (h : (selectNextOrigin t position max_path_length origin0).2 = true) :
    (selectNextOrigin t position max_path_length origin0).1 < t.length ∧
    qualifies t position max_path_length
      (selectNextOrigin t position max_path_length origin0).1 ∧
    ∀ j, j < t.length → qualifies t position max_path_length j →
      (nth t (selectNextOrigin t position max_path_length origin0).1).total_cost_ ≤
        (nth t j).total_cost_ := by
  have := selAux t position max_path_length origin0 t.length
  unfold selectNextOrigin at h ⊢
  obtain ⟨h1, h2, h3, h4⟩ := this.1 h
  refine ⟨h1, h2, ?_⟩
  intro j hj hq
  exact h3 ▸ h4 j hj hq

theorem selectNextOrigin_not_found (t : List TreeNode) (position : Vec3)
    (max_path_length : ℝ) (origin0 : ℕ)
    (h : (selectNextOrigin t position max_path_length origin0).2 = false) :
    (selectNextOrigin t position max_path_length origin0).1 = origin0 ∧
    ∀ j, j < t.length → qualifies t position max_path_length j →
      (nth t j).total_cost_ = ⊤ := by
  have := selAux t position max_path_length origin0 t.length
  unfold selectNextOrigin at h ⊢
  obtain ⟨h1, h2, h3⟩ := this.2 h
  exact ⟨h2, h3⟩

theorem edgeCost_congr {Cloud Hist CMat CParams : Type} (env : Env Cloud Hist CMat CParams)
    (P : PlanIn Cloud CParams) (t t' : List TreeNode) (i : ℕ)
    (hle : (nth t' i).last_e_ = (nth t i).last_e_)
    (hlz : (nth t' i).last_z_ = (nth t i).last_z_)
    (hor : (nth t' i).origin_ = (nth t i).origin_)
    (hpos : (nth t' i).position = (nth t i).position)
    (hvel : (nth t' i).velocity = (nth t i).velocity)
    (hpp : (nth t' (nth t i).origin_).position = (nth t (nth t i).origin_).position) :
    edgeCost env P t' i = edgeCost env P t i := by
  simp only [edgeCost]
  rw [hle, hlz, hor, hpos, hvel, hpp]

theorem treeHeuristic_last (goal : Vec3) (t : List TreeNode) (a : TreeNode) :
    treeHeuristicFunction goal (t ++ [a]) ((t ++ [a]).length - 1) =
      (goal - a.position).norm := by
  unfold treeHeuristicFunction
  have hl : (t ++ [a]).length - 1 = t.length := by simp
  rw [hl, nth_append_self]

theorem mkChild_origin {Cloud Hist CMat CParams : Type} (env : Env Cloud Hist CMat CParams)
    (P : PlanIn Cloud CParams) (origin : ℕ) (origin_position : Vec3) (depth : ℕ)
    (histogram : Hist) (tree : List TreeNode) (cand : candidateDirection) :
    (mkChild env P origin origin_position depth histogram tree cand).origin_ = origin := rfl

theorem mkChild_depth {Cloud Hist CMat CParams : Type} (env : Env Cloud Hist CMat CParams)
    (P : PlanIn Cloud CParams) (origin : ℕ) (origin_position : Vec3) (depth : ℕ)
    (histogram : Hist) (tree : List TreeNode) (cand : candidateDirection) :
    (mkChild env P origin origin_position depth histogram tree cand).depth_ = depth := rfl

theorem mkChild_closed {Cloud Hist CMat CParams : Type} (env : Env Cloud Hist CMat CParams)
    (P : PlanIn Cloud CParams) (origin : ℕ) (origin_position : Vec3) (depth : ℕ)
    (histogram : Hist) (tree : List TreeNode) (cand : candidateDirection) :
    (mkChild env P origin origin_position depth histogram tree cand).closed_ = false := rfl

theorem mkChild_position {Cloud Hist CMat CParams : Type} (env : Env Cloud Hist CMat CParams)
    (P : PlanIn Cloud CParams) (origin : ℕ) (origin_position : Vec3) (depth : ℕ)
    (histogram : Hist) (tree : List TreeNode) (cand : candidateDirection) :
    (mkChild env P origin origin_position depth histogram tree cand).position =
      env.polarHistogramToCartesian (cand.toPolar P.tree_node_distance_) origin_position := rfl

theorem mkChild_last_e {Cloud Hist CMat CParams : Type} (env : Env Cloud Hist CMat CParams)
    (P : PlanIn Cloud CParams) (origin : ℕ) (origin_position : Vec3) (depth : ℕ)
    (histogram : Hist) (tree : List TreeNode) (cand : candidateDirection) :
    (mkChild env P origin origin_position depth histogram tree cand).last_e_ =
      cand.elevation_angle := rfl

theorem mkChild_last_z {Cloud Hist CMat CParams : Type} (env : Env Cloud Hist CMat CParams)
    (P : PlanIn Cloud CParams) (origin : ℕ) (origin_position : Vec3) (depth : ℕ)
    (histogram : Hist) (tree : List TreeNode) (cand : candidateDirection) :
    (mkChild env P origin origin_position depth histogram tree cand).last_z_ =
      cand.azimuth_angle := rfl

theorem mkChild_velocity {Cloud Hist CMat CParams : Type} (env : Env Cloud Hist CMat CParams)
    (P : PlanIn Cloud CParams) (origin : ℕ) (origin_position : Vec3) (depth : ℕ)
    (histogram : Hist) (tree : List TreeNode) (cand : candidateDirection) :
    (mkChild env P origin origin_position depth histogram tree cand).velocity =
      (nth tree (nth tree origin).origin_).velocity +
        ((mkChild env P origin origin_position depth histogram tree cand).position -
          origin_position) := rfl

theorem mkChild_heuristic {Cloud Hist CMat CParams : Type} (env : Env Cloud Hist CMat CParams)
    (P : PlanIn Cloud CParams) (origin : ℕ) (origin_position : Vec3) (depth : ℕ)
    (histogram : Hist) (tree : List TreeNode) (cand : candidateDirection) :
    (mkChild env P origin origin_position depth histogram tree cand).heuristic_ =
      (P.goal_ -
        (mkChild env P origin origin_position depth histogram tree cand).position).norm := by
  show treeHeuristicFunction P.goal_ _ _ = _
  rw [treeHeuristic_last]
  rfl

theorem mkChild_total {Cloud Hist CMat CParams : Type} (env : Env Cloud Hist CMat CParams)
    (P : PlanIn Cloud CParams) (origin : ℕ) (origin_position : Vec3) (depth : ℕ)
    (histogram : Hist) (tree : List TreeNode) (cand : candidateDirection)
    (ho : origin < tree.length) :
    (mkChild env P origin origin_position depth histogram tree cand).total_cost_ =
      (nth tree origin).total_cost_ - ((nth tree origin).heuristic_ : ℝ) +
        ((env.costFunction (cand.toPolar P.tree_node_distance_)
          (env.get_dist histogram (env.polarToHistogramIndex
            (cand.toPolar P.tree_node_distance_) env.alpha_res)) P.goal_
          (mkChild env P origin origin_position depth histogram tree cand).position
          (mkChild env P origin origin_position depth histogram tree cand).velocity
          P.cost_params_ : ℝ) : EReal) +
        (((mkChild env P origin origin_position depth histogram tree cand).heuristic_ :
          ℝ) : EReal) := by
  show (nth (tree ++ _) origin).total_cost_ - _ + _ + _ = _
  rw [nth_append_lt _ _ _ ho]
  rfl

theorem edgeCost_append_mkChild {Cloud Hist CMat CParams : Type}
    (env : Env Cloud Hist CMat CParams) (P : PlanIn Cloud CParams) (origin : ℕ)
    (origin_position : Vec3) (depth : ℕ) (histogram : Hist) (tree : List TreeNode)
    (cand : candidateDirection) (ho : origin < tree.length) :
    edgeCost env P
      (tree ++ [mkChild env P origin origin_position depth histogram tree cand])
      tree.length =
    env.costFunction (cand.toPolar P.tree_node_distance_)
      (env.get_dist (env.generateNewHistogram P.cloud_ ((nth tree origin).position))
        (env.polarToHistogramIndex (cand.toPolar P.tree_node_distance_) env.alpha_res))
      P.goal_
      (mkChild env P origin origin_position depth histogram tree cand).position
      (mkChild env P origin origin_position depth histogram tree cand).velocity
      P.cost_params_ := by
  simp only [edgeCost]
  rw [nth_append_self, mkChild_origin, nth_append_lt _ _ _ ho, mkChild_last_e, mkChild_last_z]
  rfl

theorem foldAdd_step {Cloud Hist CMat CParams : Type} (env : Env Cloud Hist CMat CParams)
    (P : PlanIn Cloud CParams) (T0 : List TreeNode) (o : ℕ)
    (ho : o < T0.length) (hg : (nth T0 o).origin_ < T0.length)
    (acc : List TreeNode × ℕ) (cand : candidateDirection)
    (hQ : foldInv env P T0 o acc) :
    foldInv env P T0 o
      (addCandidate env P o ((nth T0 o).position) ((nth T0 o).depth_ + 1)
        (env.generateNewHistogram P.cloud_ ((nth T0 o).position)) acc cand) := by
  obtain ⟨hlen, hcount, hbound, hold, hnew, hsp⟩ := hQ
  have ho1 : o < acc.1.length := lt_of_lt_of_le ho hlen
  simp only [addCandidate]
  split_ifs with hacc
  · refine ⟨?_, ?_, ?_, ?_, ?_, ?_⟩
    · simp only [List.length_append, List.length_cons, List.length_nil]
      omega
    · simp only [List.length_append, List.length_cons, List.length_nil]
      omega
    · have h1 : (acc.2 : ℤ) + 1 ≤ P.children_per_node_ := Int.add_one_le_iff.mpr hacc.1
      have h2 : P.children_per_node_ ≤ max P.children_per_node_ 0 := le_max_left _ _
      push_cast
      exact le_trans h1 h2
    · intro j hj
      rw [nth_append_lt _ _ _ (lt_of_lt_of_le hj hlen)]
      exact hold j hj
    · intro j hjge hjlt
      simp only [List.length_append, List.length_cons, List.length_nil] at hjlt
      rcases Nat.lt_succ_iff_lt_or_eq.mp (by omega : j < acc.1.length + 1) with hlt | heq
      · have hfact := hnew j hjge hlt
        have hnth : nth (acc.1 ++ [mkChild env P o ((nth T0 o).position)
            ((nth T0 o).depth_ + 1)
            (env.generateNewHistogram P.cloud_ ((nth T0 o).position)) acc.1 cand]) j =
            nth acc.1 j := nth_append_lt _ _ _ hlt
        have hec : edgeCost env P (acc.1 ++ [mkChild env P o ((nth T0 o).position)
            ((nth T0 o).depth_ + 1)
            (env.generateNewHistogram P.cloud_ ((nth T0 o).position)) acc.1 cand]) j =
            edgeCost env P acc.1 j := by
          refine edgeCost_congr env P acc.1 _ j (by rw [hnth]) (by rw [hnth]) (by rw [hnth])
            (by rw [hnth]) (by rw [hnth]) ?_
          rw [hfact.1]
          exact congrArg TreeNode.position (nth_append_lt _ _ _ ho1)
        unfold newNodeFact at hfact ⊢
        rw [hnth, hec]
        exact hfact
      · subst heq
        unfold newNodeFact
        rw [nth_append_self]
        refine ⟨mkChild_origin env P o _ _ _ _ cand, mkChild_depth env P o _ _ _ _ cand,
          mkChild_closed env P o _ _ _ _ cand, mkChild_heuristic env P o _ _ _ _ cand,
          ?_, ?_⟩
        · rw [edgeCost_append_mkChild env P o _ _ _ _ cand ho1,
            mkChild_total env P o _ _ _ _ cand ho1, hold o ho]
        · rw [mkChild_velocity env P o _ _ _ _ cand, hold o ho, hold _ hg]
    · intro i j hij hjlt
      simp only [List.length_append, List.length_cons, List.length_nil] at hjlt
      rcases Nat.lt_succ_iff_lt_or_eq.mp (by omega : j < acc.1.length + 1) with hlt | heq
      · rw [nth_append_lt _ _ _ (lt_trans hij hlt), nth_append_lt _ _ _ hlt]
        exact hsp i j hij hlt
      · subst heq
        rw [nth_append_lt _ _ _ hij, nth_append_self]
        intro hcon
        refine hacc.2 ⟨i, hij, ?_⟩
        rw [mkChild_position] at hcon
        exact hcon
  · exact ⟨hlen, hcount, hbound, hold, hnew, hsp⟩

theorem foldAdd_spec {Cloud Hist CMat CParams : Type} (env : Env Cloud Hist CMat CParams)
    (P : PlanIn Cloud CParams) (T0 : List TreeNode) (o : ℕ)
    (cands : List candidateDirection)
    (ho : o < T0.length) (hg : (nth T0 o).origin_ < T0.length)
    (hsp0 : ∀ i j, i < j → j < T0.length →
      ¬ ((nth T0 i).position - (nth T0 j).position).norm < 0.2) :
    foldInv env P T0 o
      (cands.foldl (addCandidate env P o ((nth T0 o).position) ((nth T0 o).depth_ + 1)
        (env.generateNewHistogram P.cloud_ ((nth T0 o).position))) (T0, 0)) := by
  refine foldl_preserve _ cands (T0, 0) (foldInv env P T0 o) ?_ ?_
  · refine ⟨le_refl _, by simp, ?_, fun j _ => rfl, ?_, hsp0⟩
    · simp only [Nat.cast_zero]
      exact le_max_right _ _
    · intro j h1 h2
      exact absurd h2 (Nat.not_lt.mpr h1)
  · intro acc x _ hq
    exact foldAdd_step env P T0 o ho hg acc x hq

theorem assembleInv {Cloud Hist CMat CParams : Type} (env : Env Cloud Hist CMat CParams)
    (P : PlanIn Cloud CParams) (st : LoopState) (T2 : List TreeNode)
    (ho2 : st.origin < T2.length)
    (HrootO : (nth T2 0).origin_ = 0)
    (HrootD : (nth T2 0).depth_ = 0)
    (HrootP : (nth T2 0).position = P.position_)
    (Hplt : ∀ i, 0 < i → i < T2.length → (nth T2 i).origin_ < i)
    (Hdep : ∀ i, 0 < i → i < T2.length →
      (nth T2 i).depth_ = (nth T2 (nth T2 i).origin_).depth_ + 1)
    (Hsp : ∀ i j, i < j → j < T2.length →
      ¬ ((nth T2 i).position - (nth T2 j).position).norm < 0.2)
    (Hheur : ∀ i, i < T2.length →
      (nth T2 i).heuristic_ = (P.goal_ - (nth T2 i).position).norm)
    (Hcost : ∀ i, 0 < i → i < T2.length →
      ((nth T2 i).total_cost_ = ⊤ ∧ (nth T2 i).closed_ = true) ∨
      (nth T2 i).total_cost_ =
        (nth T2 (nth T2 i).origin_).total_cost_ -
          (((nth T2 (nth T2 i).origin_).heuristic_ : ℝ) : EReal) +
          ((edgeCost env P T2 i : ℝ) : EReal) +
          (((nth T2 i).heuristic_ : ℝ) : EReal))
    (Hvel : ∀ i, 0 < i → i < T2.length →
      (nth T2 i).velocity =
        (nth T2 (nth T2 (nth T2 i).origin_).origin_).velocity +
        ((nth T2 i).position - (nth T2 (nth T2 i).origin_).position))
    (Hpcl : ∀ i, 0 < i → i < T2.length →
      (nth T2 (nth T2 i).origin_).closed_ = true)
    (Hnodup0 : st.closed_set.Nodup)
    (HnotMem : st.origin ∉ st.closed_set)
    (Hmem2 : ∀ c ∈ st.closed_set, c < T2.length ∧ (nth T2 c).closed_ = true)
    (HclosedO : (nth T2 st.origin).closed_ = true)
    (Hsize : T2.length ≤ 1 + (st.closed_set.length + 1) * P.children_per_node_.toNat) :
    TreeInv env P
      { tree := T2, closed_set := st.closed_set ++ [st.origin],
        origin := (selectNextOrigin T2 P.position_ P.max_path_length_ st.origin).1,
        is_expanded_node := (selectNextOrigin T2 P.position_ P.max_path_length_ st.origin).2 } := by
  constructor
  case origin_lt =>
    rcases Bool.eq_false_or_eq_true
      (selectNextOrigin T2 P.position_ P.max_path_length_ st.origin).2 with hb | hb
    · exact (selectNextOrigin_found T2 P.position_ P.max_path_length_ st.origin hb).1
    · rw [(selectNextOrigin_not_found T2 P.position_ P.max_path_length_ st.origin hb).1]
      exact ho2
  case root_origin => exact HrootO
  case root_depth => exact HrootD
  case root_position => exact HrootP
  case parent_lt => exact Hplt
  case depth_eq => exact Hdep
  case spaced => exact Hsp
  case heur_eq => exact Hheur
  case cost_eq => exact Hcost
  case vel_eq => exact Hvel
  case parent_closed => exact Hpcl
  case closed_nodup =>
    rw [List.nodup_append]
    exact ⟨Hnodup0, List.nodup_singleton _, by
      intro a ha hb
      rw [List.mem_singleton] at hb
      exact HnotMem (hb ▸ ha)⟩
  case closed_mem =>
    intro c hc
    rcases List.mem_append.mp hc with hc | hc
    · exact Hmem2 c hc
    · rw [List.mem_singleton] at hc
      subst hc
      exact ⟨ho2, HclosedO⟩
  case open_origin =>
    intro hb
    exact ((selectNextOrigin_found T2 P.position_ P.max_path_length_ st.origin hb).2.1).1
  case size_bound =>
    simpa using Hsize

theorem expandOnce_eq {Cloud Hist CMat CParams : Type} (env : Env Cloud Hist CMat CParams)
    (P : PlanIn Cloud CParams) (st : LoopState) :
    expandOnce env P st =
      { tree := expandTree2 env P st,
        closed_set := st.closed_set ++ [st.origin],
        origin :=
          (selectNextOrigin (expandTree2 env P st) P.position_ P.max_path_length_ st.origin).1,
        is_expanded_node :=
          (selectNextOrigin (expandTree2 env P st) P.position_ P.max_path_length_
            st.origin).2 } := rfl

theorem expandTree1_empty {Cloud Hist CMat CParams : Type} (env : Env Cloud Hist CMat CParams)
    (P : PlanIn Cloud CParams) (st : LoopState) (h : (candsOf env P st).isEmpty = true) :
    expandTree1 env P st =
      st.tree.set st.origin { nth st.tree st.origin with total_cost_ := (⊤ : EReal) } := by
  unfold expandTree1
  rw [h]
  rfl

theorem expandTree1_nonempty {Cloud Hist CMat CParams : Type} (env : Env Cloud Hist CMat CParams)
    (P : PlanIn Cloud CParams) (st : LoopState) (h : (candsOf env P st).isEmpty = false) :
    expandTree1 env P st =
      ((candsOf env P st).foldl
        (addCandidate env P st.origin ((nth st.tree st.origin).position)
          ((nth st.tree st.origin).depth_ + 1)
          (env.generateNewHistogram P.cloud_ ((nth st.tree st.origin).position)))
        (st.tree, 0)).1 := by
  unfold expandTree1
  rw [h]
  rfl

theorem expandOnce_inv_empty {Cloud Hist CMat CParams : Type}
    (env : Env Cloud Hist CMat CParams) (P : PlanIn Cloud CParams) (st : LoopState)
    (hInv : TreeInv env P st) (hexp : st.is_expanded_node = true)
    (hemp : (candsOf env P st).isEmpty = true) :
    TreeInv env P (expandOnce env P st) := by
  obtain ⟨olt, rO, rD, rP, plt, dep, sp, he, ce, ve, pc, ndp, cm, oo, sb⟩ := hInv
  have hopen : (nth st.tree st.origin).closed_ = false := oo hexp
  have hT1 := expandTree1_empty env P st hemp
  have hlen1 : (expandTree1 env P st).length = st.tree.length := by
    rw [hT1, List.length_set]
  have hnthT1o : nth (expandTree1 env P st) st.origin =
      { nth st.tree st.origin with total_cost_ := (⊤ : EReal) } := by
    rw [hT1]
    exact nth_set_self _ _ _ olt
  have hT2node : nth (expandTree2 env P st) st.origin =
      { { nth st.tree st.origin with total_cost_ := (⊤ : EReal) } with closed_ := true } := by
    unfold expandTree2
    rw [nth_set_self _ _ _ (by rw [hlen1]; exact olt), hnthT1o]
  have hT2ne : ∀ j, j ≠ st.origin → nth (expandTree2 env P st) j = nth st.tree j := by
    intro j hj
    unfold expandTree2
    rw [nth_set_ne _ _ _ _ hj, hT1, nth_set_ne _ _ _ _ hj]
  have hlen2 : (expandTree2 env P st).length = st.tree.length := by
    unfold expandTree2
    rw [List.length_set, hlen1]
  have hfields : ∀ j, (nth (expandTree2 env P st) j).origin_ = (nth st.tree j).origin_ ∧
      (nth (expandTree2 env P st) j).depth_ = (nth st.tree j).depth_ ∧
      (nth (expandTree2 env P st) j).position = (nth st.tree j).position ∧
      (nth (expandTree2 env P st) j).velocity = (nth st.tree j).velocity ∧
      (nth (expandTree2 env P st) j).heuristic_ = (nth st.tree j).heuristic_ ∧
      (nth (expandTree2 env P st) j).last_e_ = (nth st.tree j).last_e_ ∧
      (nth (expandTree2 env P st) j).last_z_ = (nth st.tree j).last_z_ := by
    intro j
    by_cases hj : j = st.origin
    · subst hj
      rw [hT2node]
      exact ⟨rfl, rfl, rfl, rfl, rfl, rfl, rfl⟩
    · rw [hT2ne j hj]
      exact ⟨rfl, rfl, rfl, rfl, rfl, rfl, rfl⟩
  have hT2o_closed : (nth (expandTree2 env P st) st.origin).closed_ = true := by
    rw [hT2node]
  have hT2o_top : (nth (expandTree2 env P st) st.origin).total_cost_ = ⊤ := by
    rw [hT2node]
  have hclosed2 : ∀ j, j ≠ st.origin →
      (nth (expandTree2 env P st) j).closed_ = (nth st.tree j).closed_ := by
    intro j hj
    rw [hT2ne j hj]
  have htot2 : ∀ j, j ≠ st.origin →
      (nth (expandTree2 env P st) j).total_cost_ = (nth st.tree j).total_cost_ := by
    intro j hj
    rw [hT2ne j hj]
  have hec : ∀ i, edgeCost env P (expandTree2 env P st) i = edgeCost env P st.tree i := by
    intro i
    exact edgeCost_congr env P st.tree _ i (hfields i).2.2.2.2.2.1 (hfields i).2.2.2.2.2.2
      (hfields i).1 (hfields i).2.2.1 (hfields i).2.2.2.1 (hfields _).2.2.1
  rw [expandOnce_eq]
  refine assembleInv env P st _ ?_ ?_ ?_ ?_ ?_ ?_ ?_ ?_ ?_ ?_ ?_ ndp ?_ ?_ hT2o_closed ?_
  · rw [hlen2]
    exact olt
  · rw [(hfields 0).1]
    exact rO
  · rw [(hfields 0).2.1]
    exact rD
  · rw [(hfields 0).2.2.1]
    exact rP
  · intro i h1 h2
    rw [(hfields i).1]
    exact plt i h1 (hlen2 ▸ h2)
  · intro i h1 h2
    rw [(hfields i).2.1, (hfields i).1, (hfields _).2.1]
    exact dep i h1 (hlen2 ▸ h2)
  · intro i j hij hj
    rw [(hfields i).2.2.1, (hfields j).2.2.1]
    exact sp i j hij (hlen2 ▸ hj)
  · intro i h2
    rw [(hfields i).2.2.2.2.1, (hfields i).2.2.1]
    exact he i (hlen2 ▸ h2)
  · intro i h1 h2
    have h2' : i < st.tree.length := hlen2 ▸ h2
    by_cases hi : i = st.origin
    · subst hi
      exact Or.inl ⟨hT2o_top, hT2o_closed⟩
    · rcases ce i h1 h2' with ⟨ht, hc⟩ | hformula
      · exact Or.inl ⟨by rw [htot2 i hi]; exact ht, by rw [hclosed2 i hi]; exact hc⟩
      · right
        have hpine : (nth st.tree i).origin_ ≠ st.origin := by
          intro hcontra
          have hx := pc i h1 h2'
          rw [hcontra, hopen] at hx
          exact Bool.false_ne_true hx
        rw [htot2 i hi, (hfields i).1, htot2 _ hpine, (hfields _).2.2.2.2.1,
          hec i, (hfields i).2.2.2.2.1]
        exact hformula
  · intro i h1 h2
    have h2' : i < st.tree.length := hlen2 ▸ h2
    rw [(hfields i).2.2.2.1, (hfields i).1, (hfields _).1, (hfields _).2.2.2.1,
      (hfields i).2.2.1, (hfields _).2.2.1]
    exact ve i h1 h2'
  · intro i h1 h2
    have h2' : i < st.tree.length := hlen2 ▸ h2
    rw [(hfields i).1]
    by_cases hpi : (nth st.tree i).origin_ = st.origin
    · rw [hpi]
      exact hT2o_closed
    · rw [hclosed2 _ hpi]
      exact pc i h1 h2'
  · intro hmem
    have hx := (cm _ hmem).2
    rw [hopen] at hx
    exact Bool.false_ne_true hx
  · intro c hc
    refine ⟨by rw [hlen2]; exact (cm c hc).1, ?_⟩
    by_cases hcs : c = st.origin
    · rw [hcs]
      exact hT2o_closed
    · rw [hclosed2 c hcs]
      exact (cm c hc).2
  · rw [hlen2]
    have hmul : st.closed_set.length * P.children_per_node_.toNat ≤
        (st.closed_set.length + 1) * P.children_per_node_.toNat :=
      Nat.mul_le_mul_right _ (Nat.le_succ _)
    omega

theorem expandOnce_inv_nonempty {Cloud Hist CMat CParams : Type}
    (env : Env Cloud Hist CMat CParams) (P : PlanIn Cloud CParams) (st : LoopState)
    (hInv : TreeInv env P st) (hexp : st.is_expanded_node = true)
    (hemp : (candsOf env P st).isEmpty = false) :
    TreeInv env P (expandOnce env P st) := by
  obtain ⟨olt, rO, rD, rP, plt, dep, sp, he, ce, ve, pc, ndp, cm, oo, sb⟩ := hInv
  have hopen : (nth st.tree st.origin).closed_ = false := oo hexp
  have h0len : 0 < st.tree.length := Nat.lt_of_le_of_lt (Nat.zero_le _) olt
  have hg : (nth st.tree st.origin).origin_ < st.tree.length := by
    by_cases h0 : st.origin = 0
    · rw [h0, rO]
      exact h0len
    · exact lt_trans (plt st.origin (Nat.pos_of_ne_zero h0) olt) olt
  have hparent_in : ∀ j, j < st.tree.length → (nth st.tree j).origin_ < st.tree.length := by
    intro j hj
    by_cases hj0 : j = 0
    · rw [hj0, rO]
      exact h0len
    · exact lt_trans (plt j (Nat.pos_of_ne_zero hj0) hj) hj
  have hT1 := expandTree1_nonempty env P st hemp
  have hfold := foldAdd_spec env P st.tree st.origin (candsOf env P st) olt hg sp
  set F := (candsOf env P st).foldl
    (addCandidate env P st.origin ((nth st.tree st.origin).position)
      ((nth st.tree st.origin).depth_ + 1)
      (env.generateNewHistogram P.cloud_ ((nth st.tree st.origin).position)))
    (st.tree, 0) with hF
  obtain ⟨flen, fcount, fbound, fpres, fnew, fsp⟩ := hfold
  have ho1' : st.origin < F.1.length := lt_of_lt_of_le olt flen
  have hnthT2o : nth (expandTree2 env P st) st.origin =
      { nth st.tree st.origin with closed_ := true } := by
    unfold expandTree2
    rw [hT1, nth_set_self _ _ _ ho1', fpres st.origin olt]
  have hT2ne : ∀ j, j ≠ st.origin →
      nth (expandTree2 env P st) j = nth F.1 j := by
    intro j hj
    unfold expandTree2
    rw [hT1, nth_set_ne _ _ _ _ hj]
  have hlen2 : (expandTree2 env P st).length = F.1.length := by
    unfold expandTree2
    rw [hT1, List.length_set]
  have hfieldsOld : ∀ j, j < st.tree.length →
      (nth (expandTree2 env P st) j).origin_ = (nth st.tree j).origin_ ∧
      (nth (expandTree2 env P st) j).depth_ = (nth st.tree j).depth_ ∧
      (nth (expandTree2 env P st) j).position = (nth st.tree j).position ∧
      (nth (expandTree2 env P st) j).velocity = (nth st.tree j).velocity ∧
      (nth (expandTree2 env P st) j).heuristic_ = (nth st.tree j).heuristic_ ∧
      (nth (expandTree2 env P st) j).last_e_ = (nth st.tree j).last_e_ ∧
      (nth (expandTree2 env P st) j).last_z_ = (nth st.tree j).last_z_ := by
    intro j hj
    by_cases hjo : j = st.origin
    · subst hjo
      rw [hnthT2o]
      exact ⟨rfl, rfl, rfl, rfl, rfl, rfl, rfl⟩
    · rw [hT2ne j hjo, fpres j hj]
      exact ⟨rfl, rfl, rfl, rfl, rfl, rfl, rfl⟩
  have hT2o_closed : (nth (expandTree2 env P st) st.origin).closed_ = true := by
    rw [hnthT2o]
  have hT2o_total : (nth (expandTree2 env P st) st.origin).total_cost_ =
      (nth st.tree st.origin).total_cost_ := by
    rw [hnthT2o]
  have hclosedOld : ∀ j, j < st.tree.length → j ≠ st.origin →
      (nth (expandTree2 env P st) j).closed_ = (nth st.tree j).closed_ := by
    intro j hj hjo
    rw [hT2ne j hjo, fpres j hj]
  have htotOld : ∀ j, j < st.tree.length → j ≠ st.origin →
      (nth (expandTree2 env P st) j).total_cost_ = (nth st.tree j).total_cost_ := by
    intro j hj hjo
    rw [hT2ne j hjo, fpres j hj]
  have hposT2 : ∀ j, (nth (expandTree2 env P st) j).position = (nth F.1 j).position := by
    intro j
    by_cases hjo : j = st.origin
    · subst hjo
      rw [hnthT2o, fpres st.origin olt]
    · rw [hT2ne j hjo]
  have hecOld : ∀ i, i < st.tree.length →
      edgeCost env P (expandTree2 env P st) i = edgeCost env P st.tree i := by
    intro i hi
    exact edgeCost_congr env P st.tree _ i (hfieldsOld i hi).2.2.2.2.2.1
      (hfieldsOld i hi).2.2.2.2.2.2 (hfieldsOld i hi).1 (hfieldsOld i hi).2.2.1
      (hfieldsOld i hi).2.2.2.1 (hfieldsOld _ (hparent_in i hi)).2.2.1
  have hnew2 : ∀ j, st.tree.length ≤ j → j < (expandTree2 env P st).length →
      newNodeFact env P st.tree st.origin (expandTree2 env P st) j := by
    intro j h1 h2
    have hne : j ≠ st.origin := by omega
    have hj : j < F.1.length := hlen2 ▸ h2
    have hf := fnew j h1 hj
    have hnth := hT2ne j hne
    have hec2 : edgeCost env P (expandTree2 env P st) j = edgeCost env P F.1 j := by
      refine edgeCost_congr env P F.1 _ j (by rw [hnth]) (by rw [hnth]) (by rw [hnth])
        (by rw [hnth]) (by rw [hnth]) ?_
      rw [hf.1, hnthT2o, fpres st.origin olt]
    unfold newNodeFact at hf ⊢
    rw [hnth, hec2]
    exact hf
  rw [expandOnce_eq]
  refine assembleInv env P st _ ?_ ?_ ?_ ?_ ?_ ?_ ?_ ?_ ?_ ?_ ?_ ndp ?_ ?_ hT2o_closed ?_
  · rw [hlen2]
    exact ho1'
  · rw [(hfieldsOld 0 h0len).1]
    exact rO
  · rw [(hfieldsOld 0 h0len).2.1]
    exact rD
  · rw [(hfieldsOld 0 h0len).2.2.1]
    exact rP
  · intro i h1 h2
    by_cases hi : i < st.tree.length
    · rw [(hfieldsOld i hi).1]
      exact plt i h1 hi
    · have hge := le_of_not_lt hi
      rw [(hnew2 i hge h2).1]
      exact lt_of_lt_of_le olt hge
  · intro i h1 h2
    by_cases hi : i < st.tree.length
    · rw [(hfieldsOld i hi).2.1, (hfieldsOld i hi).1,
        (hfieldsOld _ (hparent_in i hi)).2.1]
      exact dep i h1 hi
    · have hf := hnew2 i (le_of_not_lt hi) h2
      rw [hf.1, (hfieldsOld st.origin olt).2.1, hf.2.1]
  · intro i j hij hj
    rw [hposT2 i, hposT2 j]
    exact fsp i j hij (hlen2 ▸ hj)
  · intro i h2
    by_cases hi : i < st.tree.length
    · rw [(hfieldsOld i hi).2.2.2.2.1, (hfieldsOld i hi).2.2.1]
      exact he i hi
    · exact (hnew2 i (le_of_not_lt hi) h2).2.2.2.1
  · intro i h1 h2
    by_cases hi : i < st.tree.length
    · by_cases hio : i = st.origin
      · subst hio
        rcases ce st.origin h1 hi with ⟨ht, hc⟩ | hform
        · rw [hopen] at hc
          exact (Bool.false_ne_true hc).elim
        · right
          have hpo_ne : (nth st.tree st.origin).origin_ ≠ st.origin := by
            intro hcontra
            have hx := pc st.origin h1 hi
            rw [hcontra, hopen] at hx
            exact Bool.false_ne_true hx
          rw [hT2o_total, (hfieldsOld st.origin olt).1,
            htotOld _ (hparent_in st.origin hi) hpo_ne,
            (hfieldsOld _ (hparent_in st.origin hi)).2.2.2.2.1,
            hecOld st.origin hi, (hfieldsOld st.origin olt).2.2.2.2.1]
          exact hform
      · rcases ce i h1 hi with ⟨ht, hc⟩ | hform
        · exact Or.inl ⟨by rw [htotOld i hi hio]; exact ht,
            by rw [hclosedOld i hi hio]; exact hc⟩
        · right
          have hpine : (nth st.tree i).origin_ ≠ st.origin := by
            intro hcontra
            have hx := pc i h1 hi
            rw [hcontra, hopen] at hx
            exact Bool.false_ne_true hx
          rw [htotOld i hi hio, (hfieldsOld i hi).1,
            htotOld _ (hparent_in i hi) hpine,
            (hfieldsOld _ (hparent_in i hi)).2.2.2.2.1,
            hecOld i hi, (hfieldsOld i hi).2.2.2.2.1]
          exact hform
    · have hf := hnew2 i (le_of_not_lt hi) h2
      right
      rw [hf.1, hT2o_total, (hfieldsOld st.origin olt).2.2.2.2.1]
      exact hf.2.2.2.2.1
  · intro i h1 h2
    by_cases hi : i < st.tree.length
    · rw [(hfieldsOld i hi).2.2.2.1, (hfieldsOld i hi).1,
        (hfieldsOld _ (hparent_in i hi)).1,
        (hfieldsOld _ (hparent_in _ (hparent_in i hi))).2.2.2.1,
        (hfieldsOld i hi).2.2.1, (hfieldsOld _ (hparent_in i hi)).2.2.1]
      exact ve i h1 hi
    · have hf := hnew2 i (le_of_not_lt hi) h2
      rw [hf.1, (hfieldsOld st.origin olt).1, (hfieldsOld _ hg).2.2.2.1,
        (hfieldsOld st.origin olt).2.2.1]
      exact hf.2.2.2.2.2
  · intro i h1 h2
    by_cases hi : i < st.tree.length
    · rw [(hfieldsOld i hi).1]
      by_cases hpi : (nth st.tree i).origin_ = st.origin
      · rw [hpi]
        exact hT2o_closed
      · rw [hclosedOld _ (hparent_in i hi) hpi]
        exact pc i h1 hi
    · rw [(hnew2 i (le_of_not_lt hi) h2).1]
      exact hT2o_closed
  · intro hmem
    have hx := (cm _ hmem).2
    rw [hopen] at hx
    exact Bool.false_ne_true hx
  · intro c hc
    have hclt : c < st.tree.length := (cm c hc).1
    refine ⟨by rw [hlen2]; exact lt_of_lt_of_le hclt flen, ?_⟩
    by_cases hcs : c = st.origin
    · rw [hcs]
      exact hT2o_closed
    · rw [hclosedOld c hclt hcs]
      exact (cm c hc).2
  · rw [hlen2, fcount]
    have hcast : ((P.children_per_node_.toNat : ℕ) : ℤ) = max P.children_per_node_ 0 :=
      Int.toNat_eq_max P.children_per_node_
    have hcnt : F.2 ≤ P.children_per_node_.toNat := by
      have hx : (F.2 : ℤ) ≤ ((P.children_per_node_.toNat : ℕ) : ℤ) := by
        rw [hcast]
        exact fbound
      exact_mod_cast hx
    have hmul : (st.closed_set.length + 1) * P.children_per_node_.toNat =
        st.closed_set.length * P.children_per_node_.toNat + P.children_per_node_.toNat :=
      Nat.succ_mul _ _
    omega

theorem expandOnce_inv {Cloud Hist CMat CParams : Type}
    (env : Env Cloud Hist CMat CParams) (P : PlanIn Cloud CParams) (st : LoopState)
    (hInv : TreeInv env P st) (hexp : st.is_expanded_node = true) :
    TreeInv env P (expandOnce env P st) := by
  rcases Bool.eq_false_or_eq_true (candsOf env P st).isEmpty with h | h
  · exact expandOnce_inv_empty env P st hInv hexp h
  · exact expandOnce_inv_nonempty env P st hInv hexp h

theorem expandLoop_halt {Cloud Hist CMat CParams : Type}
    (env : Env Cloud Hist CMat CParams) (P : PlanIn Cloud CParams) (fuel : ℕ)
    (st : LoopState) (h : st.is_expanded_node = false) :
    expandLoop env P fuel st = st := by
  cases fuel with
  | zero => rfl
  | succ fuel =>
    simp only [expandLoop, h]
    rfl

theorem expandLoop_inv {Cloud Hist CMat CParams : Type}
    (env : Env Cloud Hist CMat CParams) (P : PlanIn Cloud CParams) (fuel : ℕ)
    (st : LoopState) (hInv : TreeInv env P st) :
    TreeInv env P (expandLoop env P fuel st) := by
  induction fuel generalizing st with
  | zero => exact hInv
  | succ fuel ih =>
    rcases Bool.eq_false_or_eq_true st.is_expanded_node with hexp | hexp
    · simp only [expandLoop, hexp, if_true]
      exact ih _ (expandOnce_inv env P st hInv hexp)
    · simp only [expandLoop, hexp]
      exact hInv

theorem initLoop_inv {Cloud Hist CMat CParams : Type}
    (env : Env Cloud Hist CMat CParams) (P : PlanIn Cloud CParams) :
    TreeInv env P (initLoopState P) := by
  have hlen : (initLoopState P).tree.length = 1 := rfl
  constructor
  case origin_lt => rw [hlen]; exact Nat.zero_lt_one
  case root_origin => rfl
  case root_depth => rfl
  case root_position => rfl
  case parent_lt => intro i h1 h2; rw [hlen] at h2; omega
  case depth_eq => intro i h1 h2; rw [hlen] at h2; omega
  case spaced => intro i j hij hj; rw [hlen] at hj; omega
  case heur_eq =>
    intro i hi
    rw [hlen] at hi
    have hi0 : i = 0 := by omega
    subst hi0
    rfl
  case cost_eq => intro i h1 h2; rw [hlen] at h2; omega
  case vel_eq => intro i h1 h2; rw [hlen] at h2; omega
  case parent_closed => intro i h1 h2; rw [hlen] at h2; omega
  case closed_nodup => exact List.nodup_nil
  case closed_mem => intro c hc; cases hc
  case open_origin => intro _; rfl
  case size_bound => rw [hlen]; omega

theorem runCore_inv {Cloud Hist CMat CParams : Type}
    (env : Env Cloud Hist CMat CParams) (P : PlanIn Cloud CParams) :
    TreeInv env P (runCore env P) :=
  expandLoop_inv env P _ _ (initLoop_inv env P)

theorem expandOnce_closed_len {Cloud Hist CMat CParams : Type}
    (env : Env Cloud Hist CMat CParams) (P : PlanIn Cloud CParams) (st : LoopState) :
    (expandOnce env P st).closed_set.length = st.closed_set.length + 1 := by
  rw [expandOnce_eq]
  simp

theorem expandLoop_closed_le {Cloud Hist CMat CParams : Type}
    (env : Env Cloud Hist CMat CParams) (P : PlanIn Cloud CParams) (fuel : ℕ)
    (st : LoopState) :
    (expandLoop env P fuel st).closed_set.length ≤ st.closed_set.length + fuel := by
  induction fuel generalizing st with
  | zero => exact Nat.le_refl _
  | succ fuel ih =>
    rcases Bool.eq_false_or_eq_true st.is_expanded_node with hexp | hexp
    · simp only [expandLoop, hexp, if_true]
      calc (expandLoop env P fuel (expandOnce env P st)).closed_set.length ≤
          (expandOnce env P st).closed_set.length + fuel := ih _
        _ = st.closed_set.length + 1 + fuel := by rw [expandOnce_closed_len]
        _ ≤ st.closed_set.length + (fuel + 1) := by omega
    · rw [expandLoop_halt env P (fuel + 1) st hexp]
      omega

theorem backtrack_parentChain (t : List TreeNode)
    (hplt : ∀ j, 0 < j → j < t.length → (nth t j).origin_ < j) :
    ∀ fuel i, i < fuel → i < t.length →
      backtrackOrigins t fuel i ++ [0] = parentChain t i := by
  intro fuel
  induction fuel with
  | zero => intro i hi _; omega
  | succ fuel ih =>
    intro i hif hit
    cases i with
    | zero => simp [backtrackOrigins, parentChain]
    | succ k =>
      have ho : (nth t (k + 1)).origin_ < k + 1 := hplt (k + 1) (Nat.succ_pos k) hit
      have h1 : (nth t (k + 1)).origin_ < fuel := by omega
      have h2 : (nth t (k + 1)).origin_ < t.length := lt_trans ho hit
      have hrec := ih (nth t (k + 1)).origin_ h1 h2
      simp only [backtrackOrigins, Nat.succ_pos, if_pos, List.cons_append]
      rw [parentChain, min_eq_left (by omega : (nth t (k + 1)).origin_ ≤ k), hrec]

theorem pathNodeOrigins_eq_parentChain (t : List TreeNode) (e : ℕ)
    (hplt : ∀ j, 0 < j → j < t.length → (nth t j).origin_ < j) (he : e < t.length) :
    pathNodeOrigins t e = parentChain t e :=
  backtrack_parentChain t hplt t.length e he he

theorem pathNodePositions_last (t : List TreeNode) (e : ℕ) :
    (pathNodePositions t e).getLastD default = (nth t 0).position := by
  unfold pathNodePositions pathNodeOrigins
  rw [List.map_append]
  simp

theorem originIter_reaches_zero (t : List TreeNode)
    (hplt : ∀ j, 0 < j → j < t.length → (nth t j).origin_ < j) :
    ∀ i, i < t.length → ∃ k, k ≤ i ∧ originIter t k i = 0 := by
  intro i
  induction i using Nat.strong_induction_on with
  | _ i ih =>
    intro hi
    cases i with
    | zero => exact ⟨0, le_refl 0, rfl⟩
    | succ m =>
      have ho := hplt (m + 1) (Nat.succ_pos m) hi
      obtain ⟨k, hk, hiter⟩ := ih (nth t (m + 1)).origin_ ho (lt_trans ho hi)
      refine ⟨k + 1, by omega, ?_⟩
      show originIter t k (nth t (m + 1)).origin_ = 0
      exact hiter

theorem selectNextOrigin_all_closed (t : List TreeNode) (p : Vec3) (m : ℝ) (origin0 : ℕ)
    (h : ∀ i, i < t.length → (nth t i).closed_ = true) :
    selectNextOrigin t p m origin0 = (origin0, false) := by
  rcases Bool.eq_false_or_eq_true (selectNextOrigin t p m origin0).2 with hb | hb
  · obtain ⟨h1, h2, _⟩ := selectNextOrigin_found t p m origin0 hb
    obtain ⟨hc, -⟩ := h2
    rw [h _ h1] at hc
    exact absurd hc (by simp)
  · obtain ⟨h1, _⟩ := selectNextOrigin_not_found t p m origin0 hb
    exact Prod.ext h1 hb

theorem initialTreeB : initialTree (stB.toPlanIn) = [rootB] := by
  have h0 : treeHeuristicFunction (stB.toPlanIn).goal_
      [{ origin_ := 0, depth_ := 0, position := (stB.toPlanIn).position_,
         velocity := (stB.toPlanIn).velocity_ }] 0 = 2 := by
    show Vec3.norm _ = 2
    unfold Vec3.norm
    show Real.sqrt (((2 : ℝ) - 0) ^ 2 + ((0 : ℝ) - 0) ^ 2 + ((0 : ℝ) - 0) ^ 2) = 2
    rw [show ((2 : ℝ) - 0) ^ 2 + ((0 : ℝ) - 0) ^ 2 + ((0 : ℝ) - 0) ^ 2 = 2 ^ 2 by norm_num]
    exact Real.sqrt_sq (by norm_num)
  simp only [initialTree]
  rw [h0]
  rfl

theorem mkChildB :
    mkChild envB stB.toPlanIn 0 ((nth [rootB] 0).position) ((nth [rootB] 0).depth_ + 1)
      (envB.generateNewHistogram (stB.toPlanIn).cloud_ ((nth [rootB] 0).position))
      [rootB] ⟨0, 0, 0⟩ = childB := by
  have hpos : (mkChild envB stB.toPlanIn 0 ((nth [rootB] 0).position)
      ((nth [rootB] 0).depth_ + 1)
      (envB.generateNewHistogram (stB.toPlanIn).cloud_ ((nth [rootB] 0).position))
      [rootB] ⟨0, 0, 0⟩).position = ⟨1, 0, 0⟩ := by
    rw [mkChild_position]
    show (⟨(0 : ℝ) + 1, (0 : ℝ), (0 : ℝ)⟩ : Vec3) = ⟨1, 0, 0⟩
    rw [show (0 : ℝ) + 1 = 1 by norm_num]
  have hheu : (mkChild envB stB.toPlanIn 0 ((nth [rootB] 0).position)
      ((nth [rootB] 0).depth_ + 1)
      (envB.generateNewHistogram (stB.toPlanIn).cloud_ ((nth [rootB] 0).position))
      [rootB] ⟨0, 0, 0⟩).heuristic_ = 1 := by
    rw [mkChild_heuristic, hpos]
    show Vec3.norm ⟨(2 : ℝ) - 1, (0 : ℝ) - 0, (0 : ℝ) - 0⟩ = 1
    unfold Vec3.norm
    rw [show ((2 : ℝ) - 1) ^ 2 + ((0 : ℝ) - 0) ^ 2 + ((0 : ℝ) - 0) ^ 2 = 1 by norm_num]
    exact Real.sqrt_one
  refine TreeNode.ext rfl rfl hpos ?_ ?_ hheu ?_ rfl rfl rfl
  · rw [mkChild_velocity, hpos]
    show ((⟨0, 0, 0⟩ : Vec3) + (⟨1, 0, 0⟩ - ⟨(0 : ℝ), 0, 0⟩)) = (⟨1, 0, 0⟩ : Vec3)
    apply Vec3.ext
    · show (0 : ℝ) + (1 - 0) = 1
      norm_num
    · show (0 : ℝ) + (0 - 0) = 0
      norm_num
    · show (0 : ℝ) + (0 - 0) = 0
      norm_num
  · rw [mkChild_total envB stB.toPlanIn 0 _ _ _ [rootB] ⟨0, 0, 0⟩ (by simp), hheu]
    show ((2 : ℝ) : EReal) - ((2 : ℝ) : EReal) + ((0 : ℝ) : EReal) + ((1 : ℝ) : EReal) =
      ((1 : ℝ) : EReal)
    rw [← EReal.coe_sub, ← EReal.coe_add, ← EReal.coe_add]
    exact congrArg Real.toEReal (by norm_num)
  · have harg : atan2 ((0 : ℝ) - 0) ((0 : ℝ) + 1 - 0) = 0 := by
      unfold atan2
      rw [show (⟨(0 : ℝ) + 1 - 0, (0 : ℝ) - 0⟩ : ℂ) = 1 by
        apply Complex.ext <;> simp]
      exact Complex.arg_one
    show croundf (-(atan2 ((0 : ℝ) - 0) ((0 : ℝ) + 1 - 0)) * 180 / Real.pi) + 90 = (90 : ℝ)
    rw [harg, show -(0 : ℝ) * 180 / Real.pi = 0 by norm_num]
    have h2 : croundf 0 = 0 := by
      unfold croundf
      rw [if_neg (lt_irrefl (0 : ℝ))]
      rw [show (0 : ℝ) + 1 / 2 = 1 / 2 by norm_num]
      rw [show Int.floor ((1 : ℝ) / 2) = 0 by
        rw [Int.floor_eq_zero_iff]
        constructor <;> norm_num]
      simp
    rw [h2]
    norm_num

theorem treeOneB :
    expandTree1 envB stB.toPlanIn ⟨[rootB], [], 0, true⟩ = [rootB, childB] := by
  rw [expandTree1_nonempty envB stB.toPlanIn ⟨[rootB], [], 0, true⟩ rfl]
  show ((candsOf envB stB.toPlanIn ⟨[rootB], [], 0, true⟩).foldl
      (addCandidate envB stB.toPlanIn 0 ((nth [rootB] 0).position)
        ((nth [rootB] 0).depth_ + 1)
        (envB.generateNewHistogram (stB.toPlanIn).cloud_ ((nth [rootB] 0).position)))
      ([rootB], 0)).1 = [rootB, childB]
  rw [show candsOf envB stB.toPlanIn ⟨[rootB], [], 0, true⟩ =
    [(⟨0, 0, 0⟩ : candidateDirection)] from rfl]
  rw [List.foldl_cons, List.foldl_nil]
  simp only [addCandidate]
  split_ifs with hc
  · show [rootB] ++ [mkChild envB stB.toPlanIn 0 ((nth [rootB] 0).position)
      ((nth [rootB] 0).depth_ + 1)
      (envB.generateNewHistogram (stB.toPlanIn).cloud_ ((nth [rootB] 0).position))
      [rootB] ⟨0, 0, 0⟩] = [rootB, childB]
    rw [mkChildB]
    rfl
  · exfalso
    apply hc
    constructor
    · show ((0 : ℕ) : ℤ) < (1 : ℤ)
      norm_num
    · rintro ⟨i, hi, hlt⟩
      have hi0 : i = 0 := by
        simpa using hi
      subst hi0
      have hnorm : ((nth [rootB] 0).position -
          envB.polarHistogramToCartesian
            ((⟨0, 0, 0⟩ : candidateDirection).toPolar (stB.toPlanIn).tree_node_distance_)
            ((nth [rootB] 0).position)).norm = 1 := by
        show Vec3.norm ⟨(0 : ℝ) - (0 + 1), (0 : ℝ) - 0, (0 : ℝ) - 0⟩ = 1
        unfold Vec3.norm
        rw [show ((0 : ℝ) - (0 + 1)) ^ 2 + ((0 : ℝ) - 0) ^ 2 + ((0 : ℝ) - 0) ^ 2 = 1 by
          norm_num]
        exact Real.sqrt_one
      rw [hnorm] at hlt
      norm_num at hlt

theorem treeTwoB :
    expandTree2 envB stB.toPlanIn ⟨[rootB], [], 0, true⟩ =
      [{ rootB with closed_ := true }, childB] := by
  unfold expandTree2
  rw [treeOneB]
  rfl

theorem selB :
    selectNextOrigin [{ rootB with closed_ := true }, childB] (stB.toPlanIn).position_
      (stB.toPlanIn).max_path_length_ 0 = (1, true) := by
  unfold selectNextOrigin
  rw [show ([{ rootB with closed_ := true }, childB] : List TreeNode).length = 2 from rfl,
    show List.range 2 = [0, 1] from rfl, List.foldl_cons, List.foldl_cons, List.foldl_nil]
  have hs0 : selStep [{ rootB with closed_ := true }, childB] (stB.toPlanIn).position_
      (stB.toPlanIn).max_path_length_ ((⊤ : EReal), 0, false) 0 = ((⊤ : EReal), 0, false) := by
    unfold selStep
    rw [if_neg]
    intro hcon
    exact Bool.false_ne_true hcon.symm
  rw [hs0]
  have hnorm : ((nth [{ rootB with closed_ := true }, childB] 1).position -
      (stB.toPlanIn).position_).norm = 1 := by
    show Vec3.norm ⟨(1 : ℝ) - 0, (0 : ℝ) - 0, (0 : ℝ) - 0⟩ = 1
    unfold Vec3.norm
    rw [show ((1 : ℝ) - 0) ^ 2 + ((0 : ℝ) - 0) ^ 2 + ((0 : ℝ) - 0) ^ 2 = 1 by norm_num]
    exact Real.sqrt_one
  have hcl : (nth [{ rootB with closed_ := true }, childB] 1).closed_ = false := rfl
  have hcc : (nth [{ rootB with closed_ := true }, childB] 1).total_cost_ <
      (((⊤ : EReal), 0, false) : EReal × ℕ × Bool).1 ∧
      ((nth [{ rootB with closed_ := true }, childB] 1).position -
        (stB.toPlanIn).position_).norm < (stB.toPlanIn).max_path_length_ := by
    constructor
    · exact EReal.coe_lt_top 1
    · rw [hnorm]
      show (1 : ℝ) < 100
      norm_num
  have hs1 : selStep [{ rootB with closed_ := true }, childB] (stB.toPlanIn).position_
      (stB.toPlanIn).max_path_length_ ((⊤ : EReal), 0, false) 1 =
      (((1 : ℝ) : EReal), 1, true) := by
    unfold selStep
    rw [if_pos hcl, if_pos hcc]
    rfl
  rw [hs1]

theorem expandOnceB :
    expandOnce envB stB.toPlanIn ⟨[rootB], [], 0, true⟩ =
      ⟨[{ rootB with closed_ := true }, childB], [0], 1, true⟩ := by
  rw [expandOnce_eq, treeTwoB]
  show (⟨[{ rootB with closed_ := true }, childB], [] ++ [0],
    (selectNextOrigin [{ rootB with closed_ := true }, childB] (stB.toPlanIn).position_
      (stB.toPlanIn).max_path_length_ 0).1,
    (selectNextOrigin [{ rootB with closed_ := true }, childB] (stB.toPlanIn).position_
      (stB.toPlanIn).max_path_length_ 0).2⟩ : LoopState) = _
  rw [selB]
  rfl

theorem runCoreB :
    runCore envB stB.toPlanIn = ⟨[{ rootB with closed_ := true }, childB], [0], 1, true⟩ := by
  unfold runCore
  have hinit : initLoopState stB.toPlanIn = ⟨[rootB], [], 0, true⟩ := by
    unfold initLoopState
    rw [initialTreeB]
  rw [show (stB.toPlanIn).n_expanded_nodes_.toNat = 1 from rfl, hinit]
  show expandLoop envB stB.toPlanIn (0 + 1) ⟨[rootB], [], 0, true⟩ = _
  rw [expandLoop]
  rw [if_pos rfl]
  rw [expandOnceB]
  rfl

theorem buildB_tree :
    (buildLookAheadTree envB stB).tree_ = [{ rootB with closed_ := true }, childB] := by
  unfold buildLookAheadTree
  rw [runCoreB]

theorem buildB_closed : (buildLookAheadTree envB stB).closed_set_ = [0] := by
  unfold buildLookAheadTree
  rw [runCoreB]

theorem buildB_pathorg : (buildLookAheadTree envB stB).path_node_origins_ = [1, 0] := by
  unfold buildLookAheadTree
  rw [runCoreB]
  rfl

theorem buildB_pathpos :
    (buildLookAheadTree envB stB).path_node_positions_ =
      [⟨1, 0, 0⟩, ⟨0, 0, 0⟩] := by
  unfold buildLookAheadTree
  rw [runCoreB]
  rfl

theorem backtrack_zero (t : List TreeNode) (fuel : ℕ) : backtrackOrigins t fuel 0 = [] := by
  cases fuel with
  | zero => rfl
  | succ f => simp [backtrackOrigins]

theorem pathNodeOrigins_zero (t : List TreeNode) : pathNodeOrigins t 0 = [0] := by
  unfold pathNodeOrigins
  rw [backtrack_zero]
  rfl

theorem pathNodePositions_zero (t : List TreeNode) :
    pathNodePositions t 0 = [(nth t 0).position] := by
  unfold pathNodePositions
  rw [pathNodeOrigins_zero]
  rfl

theorem fold_nochildren {Cloud Hist CMat CParams : Type} (env : Env Cloud Hist CMat CParams)
    (P : PlanIn Cloud CParams) (hC : P.children_per_node_ ≤ 0) (o : ℕ) (opos : Vec3)
    (depth : ℕ) (hist : Hist) (cands : List candidateDirection) (t : List TreeNode) :
    cands.foldl (addCandidate env P o opos depth hist) (t, 0) = (t, 0) := by
  refine foldl_preserve _ cands (t, 0) (fun acc => acc = (t, 0)) rfl ?_
  intro acc x _ hq
  subst hq
  simp only [addCandidate]
  rw [if_neg]
  rintro ⟨h1, -⟩
  omega

theorem expandLoop_first {Cloud Hist CMat CParams : Type} (env : Env Cloud Hist CMat CParams)
    (P : PlanIn Cloud CParams) (fuel : ℕ) (st : LoopState)
    (hexp : st.is_expanded_node = true) :
    expandLoop env P (fuel + 1) st = expandLoop env P fuel (expandOnce env P st) := by
  simp only [expandLoop, hexp, if_true]

/-- C1: every node of the produced tree carries as heuristic the Euclidean
distance from its position to the goal, and every child node (index i > 0)
either was later re-marked as a dead-end origin (total cost HUGE_VAL, closed)
or still carries the accumulated cost assigned at acceptance: the parent
origin's accumulated cost, minus the parent's heuristic, plus the incremental
edge cost recomputed from the environment (edgeCost), plus the child's own
heuristic. -/
theorem claim_C1 {Cloud Hist CMat CParams : Type} (env : Env Cloud Hist CMat CParams)
    (st : PlannerState Cloud CParams) (i : ℕ) (h1 : 0 < i)
    (h2 : i < (buildLookAheadTree env st).tree_.length) :
    (nth (buildLookAheadTree env st).tree_ i).heuristic_ =
      (st.goal_ - (nth (buildLookAheadTree env st).tree_ i).position).norm ∧
    (((nth (buildLookAheadTree env st).tree_ i).total_cost_ = ⊤ ∧
        (nth (buildLookAheadTree env st).tree_ i).closed_ = true) ∨
      (nth (buildLookAheadTree env st).tree_ i).total_cost_ =
        (nth (buildLookAheadTree env st).tree_
            (nth (buildLookAheadTree env st).tree_ i).origin_).total_cost_ -
          (((nth (buildLookAheadTree env st).tree_
            (nth (buildLookAheadTree env st).tree_ i).origin_).heuristic_ : ℝ) : EReal) +
          ((edgeCost env st.toPlanIn (buildLookAheadTree env st).tree_ i : ℝ) : EReal) +
          (((nth (buildLookAheadTree env st).tree_ i).heuristic_ : ℝ) : EReal)) := by
  have hInv := runCore_inv env st.toPlanIn
  have htree : (buildLookAheadTree env st).tree_ = (runCore env st.toPlanIn).tree := rfl
  rw [htree] at h2 ⊢
  exact ⟨hInv.heur_eq i h2, hInv.cost_eq i h1 h2⟩

theorem claim_C1_witness :
    0 < 1 ∧ 1 < (buildLookAheadTree envB stB).tree_.length ∧
    ((nth (buildLookAheadTree envB stB).tree_ 1).heuristic_ =
      (stB.goal_ - (nth (buildLookAheadTree envB stB).tree_ 1).position).norm ∧
    (((nth (buildLookAheadTree envB stB).tree_ 1).total_cost_ = ⊤ ∧
        (nth (buildLookAheadTree envB stB).tree_ 1).closed_ = true) ∨
      (nth (buildLookAheadTree envB stB).tree_ 1).total_cost_ =
        (nth (buildLookAheadTree envB stB).tree_
            (nth (buildLookAheadTree envB stB).tree_ 1).origin_).total_cost_ -
          (((nth (buildLookAheadTree envB stB).tree_
            (nth (buildLookAheadTree envB stB).tree_ 1).origin_).heuristic_ : ℝ) : EReal) +
          ((edgeCost envB stB.toPlanIn (buildLookAheadTree envB stB).tree_ 1 : ℝ) : EReal) +
          (((nth (buildLookAheadTree envB stB).tree_ 1).heuristic_ : ℝ) : EReal))) :=
  ⟨by norm_num, by rw [buildB_tree]; norm_num,
    claim_C1 envB stB 1 (by norm_num) (by rw [buildB_tree]; norm_num)⟩

/-- C2 (counterexample): for the concrete one-candidate environment envB and
state stB the output path is [child position, root position]: its first element
is the best reached node and its last the root, so the path does not run
root-first as the claim states (the predicted root-first order would be
[root position, child position]). -/
theorem claim_C2_counterexample :
    (buildLookAheadTree envB stB).path_node_positions_ = [⟨1, 0, 0⟩, ⟨0, 0, 0⟩] ∧
    (buildLookAheadTree envB stB).path_node_positions_.head? = some ⟨1, 0, 0⟩ ∧
    (buildLookAheadTree envB stB).path_node_positions_ ≠
      [stB.position_, (⟨1, 0, 0⟩ : Vec3)] := by
  refine ⟨buildB_pathpos, by rw [buildB_pathpos]; rfl, ?_⟩
  rw [buildB_pathpos, show stB.position_ = (⟨0, 0, 0⟩ : Vec3) from rfl]
  intro hcon
  have h1 : (⟨1, 0, 0⟩ : Vec3) = (⟨0, 0, 0⟩ : Vec3) := by
    injection hcon
  have h2 : (1 : ℝ) = 0 := congrArg Vec3.x h1
  norm_num at h2

/-- C2 (amended): the output path_node_origins_ is the parent chain of the last
selected origin (the chain following origin_ links down to node 0, best node
first, root index 0 last), and path_node_positions_ is the pointwise image of
that chain under the node positions, so the root position is the final element
of the path rather than the first. -/
theorem claim_C2_amended {Cloud Hist CMat CParams : Type} (env : Env Cloud Hist CMat CParams)
    (st : PlannerState Cloud CParams) :
    (buildLookAheadTree env st).path_node_origins_ =
      parentChain (runCore env st.toPlanIn).tree (runCore env st.toPlanIn).origin ∧
    (buildLookAheadTree env st).path_node_positions_ =
      ((buildLookAheadTree env st).path_node_origins_).map
        (fun i => (nth (runCore env st.toPlanIn).tree i).position) := by
  have hInv := runCore_inv env st.toPlanIn
  have horg : (buildLookAheadTree env st).path_node_origins_ =
      pathNodeOrigins (runCore env st.toPlanIn).tree (runCore env st.toPlanIn).origin := rfl
  constructor
  · rw [horg]
    exact pathNodeOrigins_eq_parentChain _ _ hInv.parent_lt hInv.origin_lt
  · rfl

/-- C6: after any call, node 0 has itself as parent and depth 0; at creation the
root's accumulated cost equals its heuristic; the output path is nonempty and
its last element is node 0's position. -/
theorem claim_C6 {Cloud Hist CMat CParams : Type} (env : Env Cloud Hist CMat CParams)
    (st : PlannerState Cloud CParams) :
    (nth (buildLookAheadTree env st).tree_ 0).origin_ = 0 ∧
    (nth (buildLookAheadTree env st).tree_ 0).depth_ = 0 ∧
    (nth (initialTree st.toPlanIn) 0).total_cost_ =
      (((nth (initialTree st.toPlanIn) 0).heuristic_ : ℝ) : EReal) ∧
    (buildLookAheadTree env st).path_node_positions_ ≠ [] ∧
    (buildLookAheadTree env st).path_node_positions_.getLastD default =
      (nth (buildLookAheadTree env st).tree_ 0).position := by
  have hInv := runCore_inv env st.toPlanIn
  have htree : (buildLookAheadTree env st).tree_ = (runCore env st.toPlanIn).tree := rfl
  have hpos : (buildLookAheadTree env st).path_node_positions_ =
      pathNodePositions (runCore env st.toPlanIn).tree (runCore env st.toPlanIn).origin := rfl
  refine ⟨by rw [htree]; exact hInv.root_origin, by rw [htree]; exact hInv.root_depth,
    rfl, ?_, ?_⟩
  · rw [hpos]
    unfold pathNodePositions pathNodeOrigins
    simp
  · rw [hpos, htree]
    exact pathNodePositions_last _ _

theorem claim_C6_witness :
    (nth (buildLookAheadTree envA (stA [] [] [] [] 0 ⟨0, 0, 0⟩)).tree_ 0).origin_ = 0 ∧
    (nth (buildLookAheadTree envA (stA [] [] [] [] 0 ⟨0, 0, 0⟩)).tree_ 0).depth_ = 0 ∧
    (nth (initialTree (stA [] [] [] [] 0 ⟨0, 0, 0⟩).toPlanIn) 0).total_cost_ =
      (((nth (initialTree (stA [] [] [] [] 0 ⟨0, 0, 0⟩).toPlanIn) 0).heuristic_ : ℝ) :
        EReal) ∧
    (buildLookAheadTree envA (stA [] [] [] [] 0 ⟨0, 0, 0⟩)).path_node_positions_ ≠ [] ∧
    (buildLookAheadTree envA
        (stA [] [] [] [] 0 ⟨0, 0, 0⟩)).path_node_positions_.getLastD default =
      (nth (buildLookAheadTree envA (stA [] [] [] [] 0 ⟨0, 0, 0⟩)).tree_ 0).position :=
  claim_C6 envA (stA [] [] [] [] 0 ⟨0, 0, 0⟩)

/-- C7: every non-root node's parent index is strictly smaller than its own,
its depth is its parent's depth plus one, and iterating the parent link reaches
node 0 in at most i steps. -/
theorem claim_C7 {Cloud Hist CMat CParams : Type} (env : Env Cloud Hist CMat CParams)
    (st : PlannerState Cloud CParams) (i : ℕ) (h1 : 0 < i)
    (h2 : i < (buildLookAheadTree env st).tree_.length) :
    (nth (buildLookAheadTree env st).tree_ i).origin_ < i ∧
    (nth (buildLookAheadTree env st).tree_ i).depth_ =
      (nth (buildLookAheadTree env st).tree_
        (nth (buildLookAheadTree env st).tree_ i).origin_).depth_ + 1 ∧
    ∃ k, k ≤ i ∧ originIter (buildLookAheadTree env st).tree_ k i = 0 := by
  have hInv := runCore_inv env st.toPlanIn
  have htree : (buildLookAheadTree env st).tree_ = (runCore env st.toPlanIn).tree := rfl
  rw [htree] at h2 ⊢
  exact ⟨hInv.parent_lt i h1 h2, hInv.depth_eq i h1 h2,
    originIter_reaches_zero _ hInv.parent_lt i h2⟩

theorem claim_C7_witness :
    0 < 1 ∧ 1 < (buildLookAheadTree envB stB).tree_.length ∧
    ((nth (buildLookAheadTree envB stB).tree_ 1).origin_ < 1 ∧
    (nth (buildLookAheadTree envB stB).tree_ 1).depth_ =
      (nth (buildLookAheadTree envB stB).tree_
        (nth (buildLookAheadTree envB stB).tree_ 1).origin_).depth_ + 1 ∧
    ∃ k, k ≤ 1 ∧ originIter (buildLookAheadTree envB stB).tree_ k 1 = 0) :=
  ⟨by norm_num, by rw [buildB_tree]; norm_num,
    claim_C7 envB stB 1 (by norm_num) (by rw [buildB_tree]; norm_num)⟩

/-- C10: every child node's stored velocity is the velocity of its parent's own
parent (the grandparent; the root itself for children of the root, since the
root's origin_ is 0) plus the displacement from the parent's position to the
child's position. -/
theorem claim_C10 {Cloud Hist CMat CParams : Type} (env : Env Cloud Hist CMat CParams)
    (st : PlannerState Cloud CParams) (i : ℕ) (h1 : 0 < i)
    (h2 : i < (buildLookAheadTree env st).tree_.length) :
    (nth (buildLookAheadTree env st).tree_ i).velocity =
      (nth (buildLookAheadTree env st).tree_
        (nth (buildLookAheadTree env st).tree_
          (nth (buildLookAheadTree env st).tree_ i).origin_).origin_).velocity +
      ((nth (buildLookAheadTree env st).tree_ i).position -
        (nth (buildLookAheadTree env st).tree_
          (nth (buildLookAheadTree env st).tree_ i).origin_).position) := by
  have hInv := runCore_inv env st.toPlanIn
  have htree : (buildLookAheadTree env st).tree_ = (runCore env st.toPlanIn).tree := rfl
  rw [htree] at h2 ⊢
  exact hInv.vel_eq i h1 h2

theorem claim_C10_witness :
    0 < 1 ∧ 1 < (buildLookAheadTree envB stB).tree_.length ∧
    (nth (buildLookAheadTree envB stB).tree_ 1).velocity =
      (nth (buildLookAheadTree envB stB).tree_
        (nth (buildLookAheadTree envB stB).tree_
          (nth (buildLookAheadTree envB stB).tree_ 1).origin_).origin_).velocity +
      ((nth (buildLookAheadTree envB stB).tree_ 1).position -
        (nth (buildLookAheadTree envB stB).tree_
          (nth (buildLookAheadTree envB stB).tree_ 1).origin_).position) :=
  ⟨by norm_num, by rw [buildB_tree]; norm_num,
    claim_C10 envB stB 1 (by norm_num) (by rw [buildB_tree]; norm_num)⟩

/-- C9: buildLookAheadTree is deterministic and reads no hidden state: two
planner states agreeing on pose, velocity, yaw, goal, cloud and all parameters
(but possibly differing in the previous tree, closed set, path, age and last
waypoint) produce identical trees, closed sets, paths and tree age, the
external collaborators being the same fixed environment. -/
theorem claim_C9 {Cloud Hist CMat CParams : Type} (env : Env Cloud Hist CMat CParams)
    (s1 s2 : PlannerState Cloud CParams)
    (hpos : s1.position_ = s2.position_) (hvel : s1.velocity_ = s2.velocity_)
    (hyaw : s1.curr_yaw_histogram_frame_deg_ = s2.curr_yaw_histogram_frame_deg_)
    (hgoal : s1.goal_ = s2.goal_) (hcloud : s1.cloud_ = s2.cloud_)
    (hcp : s1.cost_params_ = s2.cost_params_)
    (hch : s1.children_per_node_ = s2.children_per_node_)
    (hn : s1.n_expanded_nodes_ = s2.n_expanded_nodes_)
    (htnd : s1.tree_node_distance_ = s2.tree_node_distance_)
    (hmpl : s1.max_path_length_ = s2.max_path_length_)
    (hsm : s1.smoothing_margin_degrees_ = s2.smoothing_margin_degrees_) :
    (buildLookAheadTree env s1).tree_ = (buildLookAheadTree env s2).tree_ ∧
    (buildLookAheadTree env s1).closed_set_ = (buildLookAheadTree env s2).closed_set_ ∧
    (buildLookAheadTree env s1).path_node_positions_ =
      (buildLookAheadTree env s2).path_node_positions_ ∧
    (buildLookAheadTree env s1).path_node_origins_ =
      (buildLookAheadTree env s2).path_node_origins_ ∧
    (buildLookAheadTree env s1).tree_age_ = (buildLookAheadTree env s2).tree_age_ := by
  have hPI : s1.toPlanIn = s2.toPlanIn := by
    obtain ⟨⟨p1, v1, y1, g1, c1, cp1, ch1, n1, d1, m1, s1'⟩, r1, r2, r3, r4, r5, r6⟩ := s1
    obtain ⟨⟨p2, v2, y2, g2, c2, cp2, ch2, n2, d2, m2, s2'⟩, q1, q2, q3, q4, q5, q6⟩ := s2
    simp only at hpos hvel hyaw hgoal hcloud hcp hch hn htnd hmpl hsm
    subst hpos hvel hyaw hgoal hcloud hcp hch hn htnd hmpl hsm
    rfl
  refine ⟨?_, ?_, ?_, ?_, rfl⟩
  · show (runCore env s1.toPlanIn).tree = (runCore env s2.toPlanIn).tree
    rw [hPI]
  · show (runCore env s1.toPlanIn).closed_set = (runCore env s2.toPlanIn).closed_set
    rw [hPI]
  · show pathNodePositions (runCore env s1.toPlanIn).tree (runCore env s1.toPlanIn).origin =
      pathNodePositions (runCore env s2.toPlanIn).tree (runCore env s2.toPlanIn).origin
    rw [hPI]
  · show pathNodeOrigins (runCore env s1.toPlanIn).tree (runCore env s1.toPlanIn).origin =
      pathNodeOrigins (runCore env s2.toPlanIn).tree (runCore env s2.toPlanIn).origin
    rw [hPI]

theorem claim_C9_witness :
    (buildLookAheadTree envA (stA [] [] [] [] 0 ⟨0, 0, 0⟩)).tree_ =
      (buildLookAheadTree envA (stA [default] [3] [⟨5, 5, 5⟩] [7] 42 ⟨1, 2, 3⟩)).tree_ ∧
    (buildLookAheadTree envA (stA [] [] [] [] 0 ⟨0, 0, 0⟩)).closed_set_ =
      (buildLookAheadTree envA (stA [default] [3] [⟨5, 5, 5⟩] [7] 42 ⟨1, 2, 3⟩)).closed_set_ ∧
    (buildLookAheadTree envA (stA [] [] [] [] 0 ⟨0, 0, 0⟩)).path_node_positions_ =
      (buildLookAheadTree envA
        (stA [default] [3] [⟨5, 5, 5⟩] [7] 42 ⟨1, 2, 3⟩)).path_node_positions_ ∧
    (buildLookAheadTree envA (stA [] [] [] [] 0 ⟨0, 0, 0⟩)).path_node_origins_ =
      (buildLookAheadTree envA
        (stA [default] [3] [⟨5, 5, 5⟩] [7] 42 ⟨1, 2, 3⟩)).path_node_origins_ ∧
    (buildLookAheadTree envA (stA [] [] [] [] 0 ⟨0, 0, 0⟩)).tree_age_ =
      (buildLookAheadTree envA (stA [default] [3] [⟨5, 5, 5⟩] [7] 42 ⟨1, 2, 3⟩)).tree_age_ :=
  claim_C9 envA (stA [] [] [] [] 0 ⟨0, 0, 0⟩) (stA [default] [3] [⟨5, 5, 5⟩] [7] 42 ⟨1, 2, 3⟩)
    rfl rfl rfl rfl rfl rfl rfl rfl rfl rfl rfl

/-- C3: the selection scan returns, when it finds one, an open node within
max_path_length_ of the start whose accumulated cost is minimal among all such
nodes; when no open node within that radius exists it reports no expansion, and
a loop state with the flag cleared is left unchanged by the remaining loop
(expansion halts); moreover the closed set of a full run never repeats an
origin. -/
theorem claim_C3 {Cloud Hist CMat CParams : Type} (env : Env Cloud Hist CMat CParams) :
    (∀ (t : List TreeNode) (startp : Vec3) (maxlen : ℝ) (o0 : ℕ),
      ((selectNextOrigin t startp maxlen o0).2 = true →
        (selectNextOrigin t startp maxlen o0).1 < t.length ∧
        (nth t (selectNextOrigin t startp maxlen o0).1).closed_ = false ∧
        ((nth t (selectNextOrigin t startp maxlen o0).1).position - startp).norm < maxlen ∧
        ∀ j, j < t.length → (nth t j).closed_ = false →
          ((nth t j).position - startp).norm < maxlen →
          (nth t (selectNextOrigin t startp maxlen o0).1).total_cost_ ≤
            (nth t j).total_cost_) ∧
      ((∀ i, i < t.length → (nth t i).closed_ = true ∨
          ¬ ((nth t i).position - startp).norm < maxlen) →
        (selectNextOrigin t startp maxlen o0).2 = false)) ∧
    (∀ (P : PlanIn Cloud CParams) (fuel : ℕ) (ls : LoopState),
      ls.is_expanded_node = false → expandLoop env P fuel ls = ls) ∧
    (∀ st : PlannerState Cloud CParams, (buildLookAheadTree env st).closed_set_.Nodup) := by
  refine ⟨?_, ?_, ?_⟩
  · intro t startp maxlen o0
    constructor
    · intro hb
      obtain ⟨h1, h2, h3⟩ := selectNextOrigin_found t startp maxlen o0 hb
      obtain ⟨hq1, hq2⟩ := h2
      refine ⟨h1, hq1, hq2, ?_⟩
      intro j hj hcl hdist
      exact h3 j hj ⟨hcl, hdist⟩
    · intro hall
      rcases Bool.eq_false_or_eq_true (selectNextOrigin t startp maxlen o0).2 with hb | hb
      · obtain ⟨h1, h2, -⟩ := selectNextOrigin_found t startp maxlen o0 hb
        obtain ⟨hq1, hq2⟩ := h2
        rcases hall _ h1 with hcl | hnd
        · rw [hq1] at hcl
          exact absurd hcl (by simp)
        · exact absurd hq2 hnd
      · exact hb
  · intro P fuel ls h
    exact expandLoop_halt env P fuel ls h
  · intro st
    have h : (buildLookAheadTree env st).closed_set_ = (runCore env st.toPlanIn).closed_set :=
      rfl
    rw [h]
    exact (runCore_inv env st.toPlanIn).closed_nodup

theorem claim_C3_witness :
    (selectNextOrigin [{ rootB with closed_ := true }, childB] (stB.toPlanIn).position_
      (stB.toPlanIn).max_path_length_ 0).2 = true ∧
    (nth [{ rootB with closed_ := true }, childB]
      (selectNextOrigin [{ rootB with closed_ := true }, childB] (stB.toPlanIn).position_
        (stB.toPlanIn).max_path_length_ 0).1).closed_ = false ∧
    ((nth [{ rootB with closed_ := true }, childB]
      (selectNextOrigin [{ rootB with closed_ := true }, childB] (stB.toPlanIn).position_
        (stB.toPlanIn).max_path_length_ 0).1).position -
      (stB.toPlanIn).position_).norm < (stB.toPlanIn).max_path_length_ ∧
    expandLoop envA stB.toPlanIn 3 ⟨[rootB], [], 0, false⟩ = ⟨[rootB], [], 0, false⟩ ∧
    (buildLookAheadTree envA (stA [] [] [] [] 0 ⟨0, 0, 0⟩)).closed_set_.Nodup := by
  obtain ⟨hmain, hhalt, hnodup⟩ := claim_C3 envA
  have hb : (selectNextOrigin [{ rootB with closed_ := true }, childB]
      (stB.toPlanIn).position_ (stB.toPlanIn).max_path_length_ 0).2 = true := by
    rw [selB]
  obtain ⟨-, h2, h3, -⟩ := (hmain [{ rootB with closed_ := true }, childB]
    (stB.toPlanIn).position_ (stB.toPlanIn).max_path_length_ 0).1 hb
  exact ⟨hb, h2, h3, hhalt stB.toPlanIn 3 ⟨[rootB], [], 0, false⟩ rfl,
    hnodup (stA [] [] [] [] 0 ⟨0, 0, 0⟩)⟩

/-- C4: a candidate that gets accepted (the tree grew) passed the proximity
check against every node already present, so no existing node lies strictly
within 0.2 of the candidate's world-frame location; consequently any two
distinct nodes of the produced tree are at least 0.2 apart. -/
theorem claim_C4 {Cloud Hist CMat CParams : Type} (env : Env Cloud Hist CMat CParams)
    (st : PlannerState Cloud CParams) :
    (∀ (origin : ℕ) (opos : Vec3) (depth : ℕ) (hist : Hist) (acc : List TreeNode × ℕ)
      (cand : candidateDirection),
      (addCandidate env st.toPlanIn origin opos depth hist acc cand).1.length ≠
        acc.1.length →
      ∀ k, k < acc.1.length →
        ¬ ((nth acc.1 k).position - env.polarHistogramToCartesian
            (cand.toPolar (st.toPlanIn).tree_node_distance_) opos).norm < 0.2) ∧
    (∀ i j, i ≠ j → i < (buildLookAheadTree env st).tree_.length →
      j < (buildLookAheadTree env st).tree_.length →
      ¬ ((nth (buildLookAheadTree env st).tree_ i).position -
          (nth (buildLookAheadTree env st).tree_ j).position).norm < 0.2) := by
  constructor
  · intro origin opos depth hist acc cand hne k hk hcon
    by_cases hc : ((acc.2 : ℤ) < (st.toPlanIn).children_per_node_ ∧
        ¬ ∃ i, i < acc.1.length ∧ ((nth acc.1 i).position -
          env.polarHistogramToCartesian
            (cand.toPolar (st.toPlanIn).tree_node_distance_) opos).norm < 0.2)
    · exact hc.2 ⟨k, hk, hcon⟩
    · apply hne
      simp only [addCandidate]
      rw [if_neg hc]
  · intro i j hij hi hj
    have hInv := runCore_inv env st.toPlanIn
    have htree : (buildLookAheadTree env st).tree_ = (runCore env st.toPlanIn).tree := rfl
    rw [htree] at hi hj ⊢
    rcases Nat.lt_or_ge i j with h | h
    · exact hInv.spaced i j h hj
    · have hj' : j < i := by omega
      intro hcon
      rw [norm_sub_comm] at hcon
      exact hInv.spaced j i hj' hi hcon

theorem claim_C4_witness :
    ((addCandidate envB stB.toPlanIn 0 ((nth [rootB] 0).position)
        ((nth [rootB] 0).depth_ + 1)
        (envB.generateNewHistogram (stB.toPlanIn).cloud_ ((nth [rootB] 0).position))
        ([rootB], 0) ⟨0, 0, 0⟩).1.length ≠ ([rootB] : List TreeNode).length ∧
      ¬ ((nth [rootB] 0).position - envB.polarHistogramToCartesian
          ((⟨0, 0, 0⟩ : candidateDirection).toPolar (stB.toPlanIn).tree_node_distance_)
          ((nth [rootB] 0).position)).norm < 0.2) ∧
    ((0 : ℕ) ≠ 1 ∧ 0 < (buildLookAheadTree envB stB).tree_.length ∧
      1 < (buildLookAheadTree envB stB).tree_.length ∧
      ¬ ((nth (buildLookAheadTree envB stB).tree_ 0).position -
          (nth (buildLookAheadTree envB stB).tree_ 1).position).norm < 0.2) := by
  have hlen : (addCandidate envB stB.toPlanIn 0 ((nth [rootB] 0).position)
      ((nth [rootB] 0).depth_ + 1)
      (envB.generateNewHistogram (stB.toPlanIn).cloud_ ((nth [rootB] 0).position))
      ([rootB], 0) ⟨0, 0, 0⟩).1 = [rootB, childB] := treeOneB
  have hne : (addCandidate envB stB.toPlanIn 0 ((nth [rootB] 0).position)
      ((nth [rootB] 0).depth_ + 1)
      (envB.generateNewHistogram (stB.toPlanIn).cloud_ ((nth [rootB] 0).position))
      ([rootB], 0) ⟨0, 0, 0⟩).1.length ≠ ([rootB] : List TreeNode).length := by
    rw [hlen]
    simp
  obtain ⟨hacc, hpair⟩ := claim_C4 envB stB
  refine ⟨⟨hne, ?_⟩, by norm_num, by rw [buildB_tree]; norm_num,
    by rw [buildB_tree]; norm_num,
    hpair 0 1 (by norm_num) (by rw [buildB_tree]; norm_num)
      (by rw [buildB_tree]; norm_num)⟩
  exact hacc 0 ((nth [rootB] 0).position) ((nth [rootB] 0).depth_ + 1)
    (envB.generateNewHistogram (stB.toPlanIn).cloud_ ((nth [rootB] 0).position))
    ([rootB], 0) ⟨0, 0, 0⟩ hne 0 (by simp)

theorem foldAdd_count {Cloud Hist CMat CParams : Type} (env : Env Cloud Hist CMat CParams)
    (P : PlanIn Cloud CParams) (o : ℕ) (opos : Vec3) (depth : ℕ) (hist : Hist)
    (cands : List candidateDirection) (t : List TreeNode) :
    (cands.foldl (addCandidate env P o opos depth hist) (t, 0)).1.length ≤
      t.length + P.children_per_node_.toNat ∧
    (cands.foldl (addCandidate env P o opos depth hist) (t, 0)).2 ≤
      P.children_per_node_.toNat := by
  have hQ : (cands.foldl (addCandidate env P o opos depth hist) (t, 0)).1.length ≤
      t.length + (cands.foldl (addCandidate env P o opos depth hist) (t, 0)).2 ∧
      (((cands.foldl (addCandidate env P o opos depth hist) (t, 0)).2 : ℤ) ≤
        max P.children_per_node_ 0) := by
    refine foldl_preserve _ cands (t, 0)
      (fun acc => acc.1.length ≤ t.length + acc.2 ∧
        ((acc.2 : ℤ) ≤ max P.children_per_node_ 0)) ⟨le_refl _, by simp⟩ ?_
    intro acc x _ hq
    simp only [addCandidate]
    split_ifs with hc
    · constructor
      · simp only [List.length_append, List.length_cons, List.length_nil]
        omega
      · have h1 : (acc.2 : ℤ) + 1 ≤ P.children_per_node_ := Int.add_one_le_iff.mpr hc.1
        have h2 : P.children_per_node_ ≤ max P.children_per_node_ 0 := le_max_left _ _
        push_cast
        exact le_trans h1 h2
    · exact hq
  have hcast : ((P.children_per_node_.toNat : ℕ) : ℤ) = max P.children_per_node_ 0 :=
    Int.toNat_eq_max P.children_per_node_
  have hcnt : (cands.foldl (addCandidate env P o opos depth hist) (t, 0)).2 ≤
      P.children_per_node_.toNat := by
    have hx : (((cands.foldl (addCandidate env P o opos depth hist) (t, 0)).2 : ℕ) : ℤ) ≤
        ((P.children_per_node_.toNat : ℕ) : ℤ) := by
      rw [hcast]
      exact hQ.2
    exact_mod_cast hx
  exact ⟨le_trans hQ.1 (by omega), hcnt⟩

theorem buildC_closed : (buildLookAheadTree envA stC).closed_set_ = [] := rfl

theorem buildC_treelen : (buildLookAheadTree envA stC).tree_.length = 1 := rfl

/-- C5 (counterexample): with expansion budget n_expanded_nodes_ = -1 and
branching factor 1, the loop performs zero iterations, so the closed set has 0
elements and the tree has 1 node, while the claim as stated demands at most -1
closed nodes and at most 1 + (-1) * 1 = 0 tree nodes. -/
theorem claim_C5_counterexample :
    ¬ ((((buildLookAheadTree envA stC).closed_set_.length : ℤ) ≤ stC.n_expanded_nodes_) ∧
      (((buildLookAheadTree envA stC).tree_.length : ℤ) ≤
        1 + stC.n_expanded_nodes_ * stC.children_per_node_)) := by
  rintro ⟨h1, -⟩
  rw [buildC_closed] at h1
  rw [show stC.n_expanded_nodes_ = -1 from rfl] at h1
  norm_num at h1

/-- C5 (amended): with the budget and branching factor clamped below at zero,
the number of expansion iterations (the closed set size) never exceeds
toNat n_expanded_nodes_, a single origin's candidate fold inserts at most
toNat children_per_node_ children, and the final tree holds at most
1 + toNat n_expanded_nodes_ * toNat children_per_node_ nodes. -/
theorem claim_C5_amended {Cloud Hist CMat CParams : Type} (env : Env Cloud Hist CMat CParams)
    (st : PlannerState Cloud CParams) :
    (buildLookAheadTree env st).closed_set_.length ≤ st.n_expanded_nodes_.toNat ∧
    (buildLookAheadTree env st).tree_.length ≤
      1 + st.n_expanded_nodes_.toNat * st.children_per_node_.toNat ∧
    (∀ (cands : List candidateDirection) (origin : ℕ) (opos : Vec3) (depth : ℕ)
      (hist : Hist) (t : List TreeNode),
      (cands.foldl (addCandidate env st.toPlanIn origin opos depth hist) (t, 0)).1.length ≤
        t.length + st.children_per_node_.toNat ∧
      (cands.foldl (addCandidate env st.toPlanIn origin opos depth hist) (t, 0)).2 ≤
        st.children_per_node_.toNat) := by
  have hInv := runCore_inv env st.toPlanIn
  have hclosed : (buildLookAheadTree env st).closed_set_ =
      (runCore env st.toPlanIn).closed_set := rfl
  have htree : (buildLookAheadTree env st).tree_ = (runCore env st.toPlanIn).tree := rfl
  have hcl_le : (runCore env st.toPlanIn).closed_set.length ≤
      st.n_expanded_nodes_.toNat := by
    have h := expandLoop_closed_le env st.toPlanIn st.toPlanIn.n_expanded_nodes_.toNat
      (initLoopState st.toPlanIn)
    have h0 : (initLoopState st.toPlanIn).closed_set.length = 0 := rfl
    have h' : (runCore env st.toPlanIn).closed_set.length ≤
        (initLoopState st.toPlanIn).closed_set.length + st.n_expanded_nodes_.toNat := h
    rw [h0] at h'
    omega
  refine ⟨by rw [hclosed]; exact hcl_le, ?_, ?_⟩
  · rw [htree]
    have hsz := hInv.size_bound
    have hmul : (runCore env st.toPlanIn).closed_set.length *
        (st.toPlanIn).children_per_node_.toNat ≤
        st.n_expanded_nodes_.toNat * st.children_per_node_.toNat :=
      Nat.mul_le_mul_right _ hcl_le
    omega
  · intro cands origin opos depth hist t
    exact foldAdd_count env st.toPlanIn origin opos depth hist cands t

/-- C8: if the expansion budget is non-positive, or the branching factor is
non-positive, or the candidate extraction yields no candidates at the root,
then the output path is exactly the root position; and whenever the loop runs
at least once (positive budget) and the root extraction is empty, the root is
marked with infinite total cost and closed. -/
theorem claim_C8 {Cloud Hist CMat CParams : Type} (env : Env Cloud Hist CMat CParams)
    (st : PlannerState Cloud CParams)
    (h : st.n_expanded_nodes_ ≤ 0 ∨ st.children_per_node_ ≤ 0 ∨
      candsOf env st.toPlanIn (initLoopState st.toPlanIn) = []) :
    (buildLookAheadTree env st).path_node_positions_ = [st.position_] ∧
    (0 < st.n_expanded_nodes_ →
      candsOf env st.toPlanIn (initLoopState st.toPlanIn) = [] →
      (nth (buildLookAheadTree env st).tree_ 0).total_cost_ = ⊤ ∧
      (nth (buildLookAheadTree env st).tree_ 0).closed_ = true) := by
  have htree : (buildLookAheadTree env st).tree_ = (runCore env st.toPlanIn).tree := rfl
  have hpath : (buildLookAheadTree env st).path_node_positions_ =
      pathNodePositions (runCore env st.toPlanIn).tree (runCore env st.toPlanIn).origin := rfl
  rcases le_or_lt st.n_expanded_nodes_ 0 with hN | hN
  · have hrc : runCore env st.toPlanIn = initLoopState st.toPlanIn := by
      unfold runCore
      rw [Int.toNat_of_nonpos hN]
      rfl
    constructor
    · rw [hpath, hrc]
      show pathNodePositions (initialTree st.toPlanIn) 0 = [st.position_]
      rw [pathNodePositions_zero]
      rfl
    · intro h0 _
      exact absurd h0 (not_lt.mpr hN)
  · have hfuel : st.n_expanded_nodes_.toNat = (st.n_expanded_nodes_.toNat - 1) + 1 := by
      omega
    have hloop : runCore env st.toPlanIn = expandLoop env st.toPlanIn
        (st.n_expanded_nodes_.toNat - 1)
        (expandOnce env st.toPlanIn (initLoopState st.toPlanIn)) := by
      unfold runCore
      rw [hfuel]
      exact expandLoop_first env st.toPlanIn _ _ rfl
    rcases Bool.eq_false_or_eq_true
      (candsOf env st.toPlanIn (initLoopState st.toPlanIn)).isEmpty with hemp | hemp
    · -- the root extraction is empty: dead-end marking
      have hT1 := expandTree1_empty env st.toPlanIn (initLoopState st.toPlanIn) hemp
      have hlen1 : (expandTree1 env st.toPlanIn (initLoopState st.toPlanIn)).length = 1 := by
        rw [hT1, List.length_set]
        rfl
      have hn1 : nth (expandTree1 env st.toPlanIn (initLoopState st.toPlanIn)) 0 =
          { nth (initLoopState st.toPlanIn).tree 0 with
            total_cost_ := (⊤ : EReal) } := by
        rw [hT1, show (initLoopState st.toPlanIn).origin = 0 from rfl]
        exact nth_set_self _ _ _ Nat.zero_lt_one
      have hn2 : nth (expandTree2 env st.toPlanIn (initLoopState st.toPlanIn)) 0 =
          { { nth (initLoopState st.toPlanIn).tree 0 with
              total_cost_ := (⊤ : EReal) } with closed_ := true } := by
        unfold expandTree2
        rw [show (initLoopState st.toPlanIn).origin = 0 from rfl,
          nth_set_self _ _ _ (by rw [hlen1]; exact Nat.zero_lt_one), hn1]
      have hlen2 : (expandTree2 env st.toPlanIn (initLoopState st.toPlanIn)).length = 1 := by
        unfold expandTree2
        rw [List.length_set, hlen1]
      have hallclosed : ∀ i,
          i < (expandTree2 env st.toPlanIn (initLoopState st.toPlanIn)).length →
          (nth (expandTree2 env st.toPlanIn (initLoopState st.toPlanIn)) i).closed_ =
            true := by
        intro i hi
        rw [hlen2] at hi
        have hi0 : i = 0 := by omega
        subst hi0
        rw [hn2]
      have hsel := selectNextOrigin_all_closed
        (expandTree2 env st.toPlanIn (initLoopState st.toPlanIn)) (st.toPlanIn).position_
        (st.toPlanIn).max_path_length_ (initLoopState st.toPlanIn).origin hallclosed
      have hone : expandOnce env st.toPlanIn (initLoopState st.toPlanIn) =
          ⟨expandTree2 env st.toPlanIn (initLoopState st.toPlanIn), [0], 0, false⟩ := by
        rw [expandOnce_eq, hsel]
        rfl
      have hrc : runCore env st.toPlanIn =
          ⟨expandTree2 env st.toPlanIn (initLoopState st.toPlanIn), [0], 0, false⟩ := by
        rw [hloop, hone]
        exact expandLoop_halt env st.toPlanIn _ _ rfl
      constructor
      · rw [hpath, hrc]
        show pathNodePositions (expandTree2 env st.toPlanIn (initLoopState st.toPlanIn)) 0 =
          [st.position_]
        rw [pathNodePositions_zero, hn2]
        rfl
      · intro _ _
        rw [htree, hrc]
        constructor
        · show (nth (expandTree2 env st.toPlanIn (initLoopState st.toPlanIn)) 0).total_cost_
            = ⊤
          rw [hn2]
        · show (nth (expandTree2 env st.toPlanIn (initLoopState st.toPlanIn)) 0).closed_
            = true
          rw [hn2]
    · -- extraction nonempty at the root, so the branching factor is non-positive
      have hC : st.children_per_node_ ≤ 0 := by
        rcases h with hN' | hC | hcand
        · exact absurd hN' (not_le.mpr hN)
        · exact hC
        · rw [hcand] at hemp
          simp at hemp
      have hT1 : expandTree1 env st.toPlanIn (initLoopState st.toPlanIn) =
          (initLoopState st.toPlanIn).tree := by
        rw [expandTree1_nonempty env st.toPlanIn (initLoopState st.toPlanIn) hemp]
        rw [fold_nochildren env st.toPlanIn hC]
      have hlen1 : (expandTree1 env st.toPlanIn (initLoopState st.toPlanIn)).length = 1 := by
        rw [hT1]
        rfl
      have hn2 : nth (expandTree2 env st.toPlanIn (initLoopState st.toPlanIn)) 0 =
          { nth (initLoopState st.toPlanIn).tree 0 with
            closed_ := true } := by
        unfold expandTree2
        rw [show (initLoopState st.toPlanIn).origin = 0 from rfl,
          nth_set_self _ _ _ (by rw [hlen1]; exact Nat.zero_lt_one), hT1]
      have hlen2 : (expandTree2 env st.toPlanIn (initLoopState st.toPlanIn)).length = 1 := by
        unfold expandTree2
        rw [List.length_set, hlen1]
      have hallclosed : ∀ i,
          i < (expandTree2 env st.toPlanIn (initLoopState st.toPlanIn)).length →
          (nth (expandTree2 env st.toPlanIn (initLoopState st.toPlanIn)) i).closed_ =
            true := by
        intro i hi
        rw [hlen2] at hi
        have hi0 : i = 0 := by omega
        subst hi0
        rw [hn2]
      have hsel := selectNextOrigin_all_closed
        (expandTree2 env st.toPlanIn (initLoopState st.toPlanIn)) (st.toPlanIn).position_
        (st.toPlanIn).max_path_length_ (initLoopState st.toPlanIn).origin hallclosed
      have hone : expandOnce env st.toPlanIn (initLoopState st.toPlanIn) =
          ⟨expandTree2 env st.toPlanIn (initLoopState st.toPlanIn), [0], 0, false⟩ := by
        rw [expandOnce_eq, hsel]
        rfl
      have hrc : runCore env st.toPlanIn =
          ⟨expandTree2 env st.toPlanIn (initLoopState st.toPlanIn), [0], 0, false⟩ := by
        rw [hloop, hone]
        exact expandLoop_halt env st.toPlanIn _ _ rfl
      constructor
      · rw [hpath, hrc]
        show pathNodePositions (expandTree2 env st.toPlanIn (initLoopState st.toPlanIn)) 0 =
          [st.position_]
        rw [pathNodePositions_zero, hn2]
        rfl
      · intro _ hcand
        rw [hcand] at hemp
        simp at hemp

theorem claim_C8_witness :
    (candsOf envA (stA [] [] [] [] 0 ⟨0, 0, 0⟩).toPlanIn
      (initLoopState (stA [] [] [] [] 0 ⟨0, 0, 0⟩).toPlanIn) = []) ∧
    (buildLookAheadTree envA (stA [] [] [] [] 0 ⟨0, 0, 0⟩)).path_node_positions_ =
      [(stA [] [] [] [] 0 ⟨0, 0, 0⟩).position_] ∧
    (0 < (stA [] [] [] [] 0 ⟨0, 0, 0⟩).n_expanded_nodes_ →
      candsOf envA (stA [] [] [] [] 0 ⟨0, 0, 0⟩).toPlanIn
        (initLoopState (stA [] [] [] [] 0 ⟨0, 0, 0⟩).toPlanIn) = [] →
      (nth (buildLookAheadTree envA (stA [] [] [] [] 0 ⟨0, 0, 0⟩)).tree_ 0).total_cost_ = ⊤ ∧
      (nth (buildLookAheadTree envA
        (stA [] [] [] [] 0 ⟨0, 0, 0⟩)).tree_ 0).closed_ = true) := by
  have h := claim_C8 envA (stA [] [] [] [] 0 ⟨0, 0, 0⟩) (Or.inr (Or.inr rfl))
  exact ⟨rfl, h.1, h.2⟩

end
